import Mathlib

/-
Verification of the noms value-decoder (go/types/value_decoder.go) against its
specification.  The byte-cursor reader, the numeric codec, the hashing function
and the chunk-fetch interface are external collaborators (spec section 1), so the
input stream is embedded as a list of typed tokens and the chunk fetcher as an
invocation counter.  The TypeCache internals (intern table, struct-shape trie)
and the digest text parser are not part of the given source tree; they are
modelled from the spec where indicated.
-/

namespace Noms

/-- NomsKind is the fixed tag identifying a value or type shape
(value_decoder.go reads it with readKind).  The constructor set follows the
glossary of the spec. -/
inductive NomsKind where
  | BoolKind
  | NumberKind
  | StringKind
  | BlobKind
  | ValueKind
  | ListKind
  | MapKind
  | RefKind
  | SetKind
  | StructKind
  | TypeKind
  | CycleKind
  | UnionKind
deriving DecidableEq, Repr

/-- Modelled from the spec: the concrete byte assignment of kind tags lives in
the surrounding package, not under src/; any fixed injective assignment is
faithful, none of the claims depends on particular numbers. -/
def kindCode : NomsKind → Nat
  | NomsKind.BoolKind => 0
  | NomsKind.NumberKind => 1
  | NomsKind.StringKind => 2
  | NomsKind.BlobKind => 3
  | NomsKind.ValueKind => 4
  | NomsKind.ListKind => 5
  | NomsKind.MapKind => 6
  | NomsKind.RefKind => 7
  | NomsKind.SetKind => 8
  | NomsKind.StructKind => 9
  | NomsKind.TypeKind => 10
  | NomsKind.CycleKind => 11
  | NomsKind.UnionKind => 12

/-- Inverse of kindCode; a byte that names no kind makes the decode abort
(in the source this surfaces as the d.Chk failure in readType). -/
def kindOfByte : Nat → Option NomsKind
  | 0 => some NomsKind.BoolKind
  | 1 => some NomsKind.NumberKind
  | 2 => some NomsKind.StringKind
  | 3 => some NomsKind.BlobKind
  | 4 => some NomsKind.ValueKind
  | 5 => some NomsKind.ListKind
  | 6 => some NomsKind.MapKind
  | 7 => some NomsKind.RefKind
  | 8 => some NomsKind.SetKind
  | 9 => some NomsKind.StructKind
  | 10 => some NomsKind.TypeKind
  | 11 => some NomsKind.CycleKind
  | 12 => some NomsKind.UnionKind
  | _ => none

/-- IsPrimitiveKind from the noms type system: the kinds whose Type carries no
further structure (Bool, Number, String, Blob, Value, Type). -/
def isPrimitiveKind : NomsKind → Bool
  | NomsKind.BoolKind => true
  | NomsKind.NumberKind => true
  | NomsKind.StringKind => true
  | NomsKind.BlobKind => true
  | NomsKind.ValueKind => true
  | NomsKind.TypeKind => true
  | _ => false

/-- TypeDesc is the structural payload of a Type (spec section 3): primitive,
compound (list/map/ref/set and union), struct with ordered named fields, and
the transient cycle placeholder carrying a relative nesting level. -/
inductive TypeDesc where
  | PrimitiveDesc (k : NomsKind)
  | CompoundDesc (k : NomsKind) (elems : List TypeDesc)
  | StructDesc (name : String) (fields : List (String × TypeDesc))
  | CycleDesc (level : Nat)

mutual
def TypeDesc.decEq : (a b : TypeDesc) → Decidable (a = b)
  | TypeDesc.PrimitiveDesc k₁, TypeDesc.PrimitiveDesc k₂ =>
      if h : k₁ = k₂ then isTrue (by rw [h])
      else isFalse (by intro hh; injection hh; contradiction)
  | TypeDesc.CompoundDesc k₁ es₁, TypeDesc.CompoundDesc k₂ es₂ =>
      if hk : k₁ = k₂ then
        match TypeDesc.decEqList es₁ es₂ with
        | isTrue he => isTrue (by rw [hk, he])
        | isFalse he => isFalse (by intro hh; injection hh; contradiction)
      else isFalse (by intro hh; injection hh; contradiction)
  | TypeDesc.StructDesc n₁ fs₁, TypeDesc.StructDesc n₂ fs₂ =>
      if hn : n₁ = n₂ then
        match TypeDesc.decEqFields fs₁ fs₂ with
        | isTrue he => isTrue (by rw [hn, he])
        | isFalse he => isFalse (by intro hh; injection hh; contradiction)
      else isFalse (by intro hh; injection hh; contradiction)
  | TypeDesc.CycleDesc l₁, TypeDesc.CycleDesc l₂ =>
      if h : l₁ = l₂ then isTrue (by rw [h])
      else isFalse (by intro hh; injection hh; contradiction)
  | TypeDesc.PrimitiveDesc _, TypeDesc.CompoundDesc _ _ => isFalse (by intro hh; injection hh)
  | TypeDesc.PrimitiveDesc _, TypeDesc.StructDesc _ _ => isFalse (by intro hh; injection hh)
  | TypeDesc.PrimitiveDesc _, TypeDesc.CycleDesc _ => isFalse (by intro hh; injection hh)
  | TypeDesc.CompoundDesc _ _, TypeDesc.PrimitiveDesc _ => isFalse (by intro hh; injection hh)
  | TypeDesc.CompoundDesc _ _, TypeDesc.StructDesc _ _ => isFalse (by intro hh; injection hh)
  | TypeDesc.CompoundDesc _ _, TypeDesc.CycleDesc _ => isFalse (by intro hh; injection hh)
  | TypeDesc.StructDesc _ _, TypeDesc.PrimitiveDesc _ => isFalse (by intro hh; injection hh)
  | TypeDesc.StructDesc _ _, TypeDesc.CompoundDesc _ _ => isFalse (by intro hh; injection hh)
  | TypeDesc.StructDesc _ _, TypeDesc.CycleDesc _ => isFalse (by intro hh; injection hh)
  | TypeDesc.CycleDesc _, TypeDesc.PrimitiveDesc _ => isFalse (by intro hh; injection hh)
  | TypeDesc.CycleDesc _, TypeDesc.CompoundDesc _ _ => isFalse (by intro hh; injection hh)
  | TypeDesc.CycleDesc _, TypeDesc.StructDesc _ _ => isFalse (by intro hh; injection hh)

def TypeDesc.decEqList : (a b : List TypeDesc) → Decidable (a = b)
  | [], [] => isTrue rfl
  | [], _ :: _ => isFalse (by intro hh; injection hh)
  | _ :: _, [] => isFalse (by intro hh; injection hh)
  | d₁ :: t₁, d₂ :: t₂ =>
      match TypeDesc.decEq d₁ d₂, TypeDesc.decEqList t₁ t₂ with
      | isTrue h₁, isTrue h₂ => isTrue (by rw [h₁, h₂])
      | isFalse h₁, _ => isFalse (by intro hh; injection hh; contradiction)
      | _, isFalse h₂ => isFalse (by intro hh; injection hh; contradiction)

def TypeDesc.decEqFields : (a b : List (String × TypeDesc)) → Decidable (a = b)
  | [], [] => isTrue rfl
  | [], _ :: _ => isFalse (by intro hh; injection hh)
  | _ :: _, [] => isFalse (by intro hh; injection hh)
  | (n₁, d₁) :: t₁, (n₂, d₂) :: t₂ =>
      if hn : n₁ = n₂ then
        match TypeDesc.decEq d₁ d₂, TypeDesc.decEqFields t₁ t₂ with
        | isTrue h₁, isTrue h₂ => isTrue (by rw [hn, h₁, h₂])
        | isFalse h₁, _ => isFalse (by
            intro hh
            injection hh with hhd hhtl
            injection hhd
            contradiction)
        | _, isFalse h₂ => isFalse (by intro hh; injection hh; contradiction)
      else isFalse (by
        intro hh
        injection hh with hhd hhtl
        injection hhd
        contradiction)
end

instance : DecidableEq TypeDesc := TypeDesc.decEq

/-- Kind of a type descriptor, mirroring Type.Kind() of the source. -/
def kindOfDesc : TypeDesc → NomsKind
  | TypeDesc.PrimitiveDesc k => k
  | TypeDesc.CompoundDesc k _ => k
  | TypeDesc.StructDesc _ _ => NomsKind.StructKind
  | TypeDesc.CycleDesc _ => NomsKind.CycleKind

/-- Kinds whose canonical instances are interned through the shared cache:
the compound kinds (list, map, ref, set), union, and struct. -/
def isCachedKind : NomsKind → Bool
  | NomsKind.ListKind => true
  | NomsKind.MapKind => true
  | NomsKind.RefKind => true
  | NomsKind.SetKind => true
  | NomsKind.UnionKind => true
  | NomsKind.StructKind => true
  | _ => false

/-- Typ embeds the noms Type: a canonical descriptor plus the identity of its
interned instance.  Pointer identity of the Go *Type is modelled by the id
assigned by the cache: two Typ values are the same instance iff they are equal
as Typ (same id and same descriptor). -/
structure Typ where
  id : Nat
  desc : TypeDesc
deriving DecidableEq

/-- MakePrimitiveType from the source: primitive kinds map to pre-built
instances (no allocation); their identities are the fixed kind codes held by
every cache from construction. -/
def MakePrimitiveType (k : NomsKind) : Typ :=
  ⟨kindCode k, TypeDesc.PrimitiveDesc k⟩

/-- Token of a struct-shape trie path: a name token (struct or field name) or a
type-identity token (spec section 3, struct shape trie). -/
inductive TrieTok where
  | name (s : String)
  | typ (i : Nat)
deriving DecidableEq

/-- Modelled from the spec: the TypeCache (type_cache.go is not under src/).
It canonicalizes type descriptors — the intern table maps each canonical
descriptor to the identity of its unique shared instance — and owns the
struct-shape trie mapping fully-consumed token paths to canonical struct
types.  Identifier interning of the Go readIdent is an allocation concern
only, so name tokens carry the string itself. -/
structure TypeCache where
  table : List (TypeDesc × Nat)
  nextId : Nat
  trie : List (List TrieTok × Typ)

/-- Intern-table lookup: the identity of the instance for a descriptor. -/
def lookupDesc : List (TypeDesc × Nat) → TypeDesc → Option Nat
  | [], _ => none
  | (d', i) :: rest, d => if d' = d then some i else lookupDesc rest d

/-- Trie lookup over a fully-consumed token path; returns the populated node's
type, if any (the Go Traverse chain followed by reading the node's t field;
nodes created empty by Traverse never hold a type, so a pure map is faithful). -/
def trieFind : List (List TrieTok × Typ) → List TrieTok → Option Typ
  | [], _ => none
  | (p, t) :: rest, path => if p = path then some t else trieFind rest path

/-- Modelled from the spec: request the canonical instance for a descriptor —
if an equal one already exists return it, else intern a fresh instance. -/
def getOrIntern (d : TypeDesc) (tc : TypeCache) : Typ × TypeCache :=
  match lookupDesc tc.table d with
  | some i => (⟨i, d⟩, tc)
  | none =>
      (⟨tc.nextId, d⟩,
        { tc with table := (d, tc.nextId) :: tc.table, nextId := tc.nextId + 1 })

/-- Length-prefixed character codes of a string: one segment of the structural
key below, prefix-free because the first entry fixes how many follow. -/
def encStr (s : String) : List Nat :=
  s.length :: s.data.map Char.toNat

mutual
/-- Structural key of a type descriptor: a prefix-free (hence injective)
flattening into a list of naturals.  Its lexicographic order is the fixed
structural total order used to canonicalize union member sets — it depends
only on the descriptor's structure, never on any cache state. -/
def TypeDesc.enc : TypeDesc → List Nat
  | TypeDesc.PrimitiveDesc k => [0, kindCode k]
  | TypeDesc.CompoundDesc k es => 1 :: kindCode k :: TypeDesc.encList es
  | TypeDesc.StructDesc n fs => 2 :: (encStr n ++ TypeDesc.encFields fs)
  | TypeDesc.CycleDesc level => [3, level]

def TypeDesc.encList : List TypeDesc → List Nat
  | [] => [0]
  | d :: rest => 1 :: (TypeDesc.enc d ++ TypeDesc.encList rest)

def TypeDesc.encFields : List (String × TypeDesc) → List Nat
  | [] => [0]
  | (n, d) :: rest => 1 :: (encStr n ++ (TypeDesc.enc d ++ TypeDesc.encFields rest))
end

/-- Modelled from the spec: a union is an unordered set of member types,
deduplicated (spec section 3), so its canonical member list is the
deduplicated members sorted by their structural keys — a representative
determined by the member set alone, independent of the encoding order and
multiplicity of the members and of any cache state
(normalizeUnion_canonical below). -/
def normalizeUnion (ds : List TypeDesc) : List TypeDesc :=
  List.insertionSort (fun a b => TypeDesc.enc a ≤ TypeDesc.enc b) ds.dedup

/-- Modelled from the spec: getCompoundType canonicalizes a compound type
(list/map/ref/set, and union with its member set deduplicated). -/
def getCompoundType (k : NomsKind) (elems : List Typ) (tc : TypeCache) : Typ × TypeCache :=
  let ds := elems.map Typ.desc
  let ds := if k = NomsKind.UnionKind then normalizeUnion ds else ds
  getOrIntern (TypeDesc.CompoundDesc k ds) tc

/-- Modelled from the spec: getCycleType returns the canonical placeholder for
the given relative level. -/
def getCycleType (level : Nat) (tc : TypeCache) : Typ × TypeCache :=
  getOrIntern (TypeDesc.CycleDesc level) tc

/-- Field-path tokens of a struct shape, with field types named by their
interned identities under the given table. -/
def fieldIdToks (table : List (TypeDesc × Nat)) :
    List (String × TypeDesc) → Option (List TrieTok)
  | [] => some []
  | fd :: rest =>
      match lookupDesc table fd.2, fieldIdToks table rest with
      | some i, some ps => some (TrieTok.name fd.1 :: TrieTok.typ i :: ps)
      | _, _ => none

/-- Trie path of a struct shape: struct name, then alternating field name and
field type identity (spec section 3). -/
def triePathOf (table : List (TypeDesc × Nat)) (name : String)
    (fields : List (String × TypeDesc)) : Option (List TrieTok) :=
  match fieldIdToks table fields with
  | some ps => some (TrieTok.name name :: ps)
  | none => none

/-- Path built directly from field names and already-known type identities
(what the fast path of readCachedStructType traverses). -/
def fieldPathToks : List (String × Nat) → List TrieTok
  | [] => []
  | p :: rest => TrieTok.name p.1 :: TrieTok.typ p.2 :: fieldPathToks rest

def mkTriePath (name : String) (pairs : List (String × Nat)) : List TrieTok :=
  TrieTok.name name :: fieldPathToks pairs

/-- Modelled from the spec: makeStructType builds (or fetches) the canonical
struct type and inserts the trie edge for its shape (spec section 4.1, step 4).
Cycle placeholders inside field descriptors are retained as explicit
descriptor variants, which keeps structural identity of self-referential
shapes without raw self-referential pointers (spec section 9). -/
def makeStructType (name : String) (fields : List (String × Typ)) (tc : TypeCache) :
    Typ × TypeCache :=
  let fds := fields.map (fun p => (p.1, p.2.desc))
  let r := getOrIntern (TypeDesc.StructDesc name fds) tc
  match triePathOf r.2.table name fds with
  | some path => (r.1, { r.2 with trie := (path, r.1) :: r.2.trie })
  | none => r

/-- Fresh cache: the pre-built primitive types are present from construction
with their fixed identities; the trie is empty. -/
def initCache : TypeCache :=
  { table :=
      [(TypeDesc.PrimitiveDesc NomsKind.BoolKind, 0),
       (TypeDesc.PrimitiveDesc NomsKind.NumberKind, 1),
       (TypeDesc.PrimitiveDesc NomsKind.StringKind, 2),
       (TypeDesc.PrimitiveDesc NomsKind.BlobKind, 3),
       (TypeDesc.PrimitiveDesc NomsKind.ValueKind, 4),
       (TypeDesc.PrimitiveDesc NomsKind.TypeKind, 10)],
    nextId := 13,
    trie := [] }

/-- Ref embeds the noms Ref value: a typed pointer carrying the target chunk's
digest and a height (constructRef of the source). -/
structure Ref' where
  t : TypeDesc
  target : Nat
  height : Nat
deriving DecidableEq

def constructRef (t : TypeDesc) (h : Nat) (height : Nat) : Ref' :=
  ⟨t, h, height⟩

mutual
/-- Value embeds the immutable noms value graph produced by the decoder.
Values carry the structural descriptor of their type; the struct value's last
component is its lazily computed content digest (none while unset). -/
inductive Value where
  | bool (b : Bool)
  | number (q : Int)
  | str (s : String)
  | refV (r : Ref')
  | typeV (d : TypeDesc)
  | structV (vals : List Value) (t : TypeDesc) (h : Option Nat)
  | blob (sq : Seq)
  | list (t : TypeDesc) (sq : Seq)
  | set (t : TypeDesc) (sq : Seq)
  | mapV (t : TypeDesc) (sq : Seq)

/-- Seq is the backing representation of the four chunked container kinds:
an inline leaf or a meta sequence of child summaries (spec section 3). -/
inductive Seq where
  | blobLeaf (bytes : List Nat)
  | listLeaf (vals : List Value)
  | setLeaf (vals : List Value)
  | mapLeaf (entries : List (Value × Value))
  | meta (tuples : List MetaTuple)

/-- MetaTuple is one child summary of a meta sequence: child ref, ordered key,
cumulative leaf count, and the lazily fetched child (nil during decode). -/
inductive MetaTuple where
  | mk (ref : Ref') (key : OrderedKey) (numLeaves : Nat) (child : Option Value)

/-- OrderedKey summarizes the maximum element under a meta-sequence child:
either the target digest of a ref or the natural order of a decoded value. -/
inductive OrderedKey where
  | byHash (h : Nat)
  | byValue (v : Value)
end

def MetaTuple.ref : MetaTuple → Ref'
  | MetaTuple.mk r _ _ _ => r

def MetaTuple.key : MetaTuple → OrderedKey
  | MetaTuple.mk _ k _ _ => k

def MetaTuple.numLeaves : MetaTuple → Nat
  | MetaTuple.mk _ _ n _ => n

def MetaTuple.child : MetaTuple → Option Value
  | MetaTuple.mk _ _ _ c => c

def newMetaTuple (r : Ref') (key : OrderedKey) (numLeaves : Nat) (child : Option Value) :
    MetaTuple :=
  MetaTuple.mk r key numLeaves child

def orderedKeyFromHash (h : Nat) : OrderedKey :=
  OrderedKey.byHash h

def newOrderedKey (v : Value) : OrderedKey :=
  OrderedKey.byValue v

/-- Token of the input stream.  The byte-cursor reader is an external
collaborator (spec sections 1 and 6), so the stream is embedded at the
granularity of its read operations: fixed-width integers, a bool byte,
length-prefixed bytes and strings, a fixed-size digest, and the payload of the
external numeric codec. -/
inductive Token where
  | uint8 (n : Nat)
  | uint32 (n : Nat)
  | uint64 (n : Nat)
  | boolT (b : Bool)
  | bytes (bs : List Nat)
  | strT (s : String)
  | hashT (h : Nat)
  | number (q : Int)
deriving DecidableEq

/-- Decoder state: the token stream with a seekable cursor, the shared
TypeCache, and the invocation count of the external chunk-fetch collaborator
(which a decode must never touch). -/
structure DecState where
  toks : List Token
  pos : Nat
  tc : TypeCache
  fetches : Nat

/-- DecM is the decoder's effect shape: state passing with abort.  A decode
that hits a malformed stream or a broken invariant aborts the whole in-flight
operation (returns none); no partial value is produced. -/
def DecM (α : Type) : Type :=
  DecState → Option (α × DecState)

instance : Monad DecM where
  pure a := fun s => some (a, s)
  bind m g := fun s =>
    match m s with
    | some (a, s') => g a s'
    | none => none

def failM {α : Type} : DecM α := fun _ => none

def readTok : DecM Token := fun s =>
  match s.toks[s.pos]? with
  | some t => some (t, { s with pos := s.pos + 1 })
  | none => none

def readUint8 : DecM Nat := fun s =>
  match readTok s with
  | some (Token.uint8 n, s') => some (n, s')
  | _ => none

def readUint32 : DecM Nat := fun s =>
  match readTok s with
  | some (Token.uint32 n, s') => some (n, s')
  | _ => none

def readUint64 : DecM Nat := fun s =>
  match readTok s with
  | some (Token.uint64 n, s') => some (n, s')
  | _ => none

def readBool : DecM Bool := fun s =>
  match readTok s with
  | some (Token.boolT b, s') => some (b, s')
  | _ => none

def readBytes : DecM (List Nat) := fun s =>
  match readTok s with
  | some (Token.bytes bs, s') => some (bs, s')
  | _ => none

def readString : DecM String := fun s =>
  match readTok s with
  | some (Token.strT x, s') => some (x, s')
  | _ => none

/-- Identifier read of the fast path: it consumes the same wire bytes as
readString; interning the string into the cache's identifier table is an
allocation optimization with no semantic content, so it reads the string. -/
def readIdent : DecM String := readString

def readHash : DecM Nat := fun s =>
  match readTok s with
  | some (Token.hashT h, s') => some (h, s')
  | _ => none

def readNumber : DecM Int := fun s =>
  match readTok s with
  | some (Token.number q, s') => some (q, s')
  | _ => none

def getPos : DecM Nat := fun s => some (s.pos, s)

def seekTo (p : Nat) : DecM Unit := fun s => some ((), { s with pos := p })

def getCache : DecM TypeCache := fun s => some (s.tc, s)

/-- Lift a pure cache operation into the decoder (the Go methods on r.tc). -/
def liftTC {α : Type} (op : TypeCache → α × TypeCache) : DecM α := fun s =>
  some ((op s.tc).1, { s with tc := (op s.tc).2 })

/-- Modelled from the spec: the lazy chunk-fetch collaborator, invoked only
outside this core during later traversal; it is the only operation that
advances the fetch counter. -/
def fetchChunk (_h : Nat) : DecM Unit := fun s =>
  some ((), { s with fetches := s.fetches + 1 })

/-- Nominal loop of the source's counted for-loops: read n items in order. -/
def readN {α : Type} (m : DecM α) : Nat → DecM (List α)
  | 0 => pure []
  | n+1 => do
    let a ← m
    let as ← readN m n
    pure (a :: as)

/-- readKind of the source: one byte cast to a NomsKind. -/
def readKind : DecM NomsKind := do
  let n ← readUint8
  match kindOfByte n with
  | some k => pure k
  | none => failM

/-- readRef of the source: digest then 64-bit height, wrapped by constructRef. -/
def readRef (t : Typ) : DecM Value := do
  let h ← readHash
  let height ← readUint64
  pure (Value.refV (constructRef t.desc h height))

mutual
/-- readType of the source: one kind tag, then the kind-appropriate type
payload, canonicalized through the shared cache. -/
def readType : Nat → DecM Typ
  | 0 => failM
  | f+1 => do
    let k ← readKind
    match k with
    | NomsKind.ListKind => do
        let e ← readType f
        liftTC (getCompoundType NomsKind.ListKind [e])
    | NomsKind.MapKind => do
        let kt ← readType f
        let vt ← readType f
        liftTC (getCompoundType NomsKind.MapKind [kt, vt])
    | NomsKind.RefKind => do
        let e ← readType f
        liftTC (getCompoundType NomsKind.RefKind [e])
    | NomsKind.SetKind => do
        let e ← readType f
        liftTC (getCompoundType NomsKind.SetKind [e])
    | NomsKind.StructKind => readStructType f
    | NomsKind.UnionKind => readUnionType f
    | NomsKind.CycleKind => do
        let level ← readUint32
        liftTC (getCycleType level)
    | k => if isPrimitiveKind k then pure (MakePrimitiveType k) else failM

/-- Field loop shared by the struct fast path and the full path: count pairs of
field name and fully decoded field type. -/
def readFieldPairs : Nat → Nat → DecM (List (String × Typ))
  | 0, _ => failM
  | f+1, count =>
      readN (do
        let fn ← readString
        let ft ← readType f
        pure (fn, ft)) count

/-- readCachedStructType of the source: traverse the trie along the name
token, the field count, and each field-name and field-type-identity token; the
landed node's type (or none on an unpopulated node) is returned.  Field types
are decoded by full recursive readType calls, exactly as in the source. -/
def readCachedStructType : Nat → DecM (Option Typ)
  | 0 => failM
  | f+1 => do
    let name ← readIdent
    let count ← readUint32
    let pairs ← readFieldPairs f count
    let tc ← getCache
    pure (trieFind tc.trie (mkTriePath name (pairs.map (fun p => (p.1, p.2.id)))))

/-- Full struct-type path of readStructType: struct name, field count, then
each (field name, field type) pair, built through the cache. -/
def readStructTypeFull : Nat → DecM Typ
  | 0 => failM
  | f+1 => do
    let name ← readString
    let count ← readUint32
    let fields ← readFieldPairs f count
    liftTC (makeStructType name fields)

/-- readStructType of the source: try to decode the cached type first; on a
trie miss seek back to the saved position and run the full path. -/
def readStructType : Nat → DecM Typ
  | 0 => failM
  | f+1 => do
    let pos ← getPos
    let cached ← readCachedStructType f
    match cached with
    | some t => pure t
    | none => do
        seekTo pos
        readStructTypeFull f

/-- readUnionType of the source: count, then that many member types,
canonicalized as a compound union. -/
def readUnionType : Nat → DecM Typ
  | 0 => failM
  | f+1 => do
    let l ← readUint32
    let ts ← readN (readType f) l
    liftTC (getCompoundType NomsKind.UnionKind ts)

/-- readValue of the source: one Type, then the kind-appropriate payload.
Union, cycle and the generic value kind can describe a type but never tag an
actual value; hitting one aborts the decode (the d.Chk.Fail of the source). -/
def readValue : Nat → DecM Value
  | 0 => failM
  | f+1 => do
    let t ← readType f
    match kindOfDesc t.desc with
    | NomsKind.BlobKind => do
        let isMeta ← readBool
        if isMeta then do
          let data ← readMetaSequence f
          pure (Value.blob (Seq.meta data))
        else do
          let b ← readBytes
          pure (Value.blob (Seq.blobLeaf b))
    | NomsKind.BoolKind => do
        let b ← readBool
        pure (Value.bool b)
    | NomsKind.NumberKind => do
        let q ← readNumber
        pure (Value.number q)
    | NomsKind.StringKind => do
        let x ← readString
        pure (Value.str x)
    | NomsKind.ListKind => do
        let isMeta ← readBool
        if isMeta then do
          let data ← readMetaSequence f
          pure (Value.list t.desc (Seq.meta data))
        else do
          let data ← readValueSequence f
          pure (Value.list t.desc (Seq.listLeaf data))
    | NomsKind.MapKind => do
        let isMeta ← readBool
        if isMeta then do
          let data ← readMetaSequence f
          pure (Value.mapV t.desc (Seq.meta data))
        else do
          let data ← readMapLeafSequence f
          pure (Value.mapV t.desc (Seq.mapLeaf data))
    | NomsKind.RefKind => readRef t
    | NomsKind.SetKind => do
        let isMeta ← readBool
        if isMeta then do
          let data ← readMetaSequence f
          pure (Value.set t.desc (Seq.meta data))
        else do
          let data ← readValueSequence f
          pure (Value.set t.desc (Seq.setLeaf data))
    | NomsKind.StructKind => readStruct f t
    | NomsKind.TypeKind => do
        let t₂ ← readType f
        pure (Value.typeV t₂.desc)
    | NomsKind.CycleKind => failM
    | NomsKind.UnionKind => failM
    | NomsKind.ValueKind => failM

/-- readValueSequence of the source: count, then that many values in order. -/
def readValueSequence : Nat → DecM (List Value)
  | 0 => failM
  | f+1 => do
    let count ← readUint32
    readN (readValue f) count

/-- readMapLeafSequence of the source: count, then that many key-value pairs. -/
def readMapLeafSequence : Nat → DecM (List (Value × Value))
  | 0 => failM
  | f+1 => do
    let count ← readUint32
    readN (do
      let k ← readValue f
      let v ← readValue f
      pure (k, v)) count

/-- Loop body of readMetaSequence: a ref value (the child pointer — the Go
type assertion on a non-Ref aborts the decode), a second value from which the
ordered key is derived, and the cumulative leaf count; the child is nil. -/
def readMetaTuple : Nat → DecM MetaTuple
  | 0 => failM
  | f+1 => do
    let v₀ ← readValue f
    match v₀ with
    | Value.refV r => do
        let v ← readValue f
        let key :=
          match v with
          | Value.refV r₂ => orderedKeyFromHash r₂.target
          | _ => newOrderedKey v
        let numLeaves ← readUint64
        pure (newMetaTuple r key numLeaves none)
    | _ => failM

/-- readMetaSequence of the source: count, then that many meta tuples. -/
def readMetaSequence : Nat → DecM (List MetaTuple)
  | 0 => failM
  | f+1 => do
    let count ← readUint32
    readN (readMetaTuple f) count

/-- readStruct of the source: the struct type's declared field count drives
exactly that many positional value decodes; the struct value is built with an
unset content digest. -/
def readStruct : Nat → Typ → DecM Value
  | 0, _ => failM
  | f+1, t =>
      match t.desc with
      | TypeDesc.StructDesc _ fields => do
          let values ← readN (readValue f) fields.length
          pure (Value.structV values t.desc none)
      | _ => failM
end

/-- Modelled from the spec: value of one hex digit of the canonical lowercase
digest text (the digest parser itself is not under src/, only its tests). -/
def hexVal (c : Char) : Option Nat :=
  if '0' ≤ c ∧ c ≤ '9' then some (c.toNat - '0'.toNat)
  else if 'a' ≤ c ∧ c ≤ 'f' then some (c.toNat - 'a'.toNat + 10)
  else none

/-- Modelled from the spec: hex digit pairs decoded to bytes; an odd run or a
non-hex character fails. -/
def hexBytes : List Char → Option (List Nat)
  | [] => some []
  | c₁ :: c₂ :: rest =>
      match hexVal c₁, hexVal c₂, hexBytes rest with
      | some h, some l, some bs => some ((16 * h + l) :: bs)
      | _, _, _ => none
  | [_] => none

/-- Modelled from the spec: Parse of the digest text codec.  The canonical
form is the algorithm tag "sha1", a dash, then exactly 40 hex characters
(spec sections 3 and 6); anything else is a parse error, modelled as none. -/
def parseDigest (s : String) : Option (List Nat) :=
  match s.data with
  | 's' :: 'h' :: 'a' :: '1' :: '-' :: rest =>
      if rest.length = 40 then hexBytes rest else none
  | _ => none

/-- Monotone growth of the intern table: established lookups stay valid. -/
def lookupMono (tc tc' : TypeCache) : Prop :=
  ∀ d i, lookupDesc tc.table d = some i → lookupDesc tc'.table d = some i

/-- Coherence of one trie entry: its type is registered, is a struct type, and
the entry's path spells exactly that struct's name and fields with the fields'
registered type identities. -/
def TrieEntryOK (table : List (TypeDesc × Nat)) (path : List TrieTok) (t : Typ) : Prop :=
  lookupDesc table t.desc = some t.id ∧
  ∃ name fields ids, t.desc = TypeDesc.StructDesc name fields ∧
    List.Forall₂ (fun (fd : String × TypeDesc) (i : Nat) => lookupDesc table fd.2 = some i)
      fields ids ∧
    path = mkTriePath name ((fields.map Prod.fst).zip ids)

/-- Well-formedness of a TypeCache: instance identities are unique and below
the allocation counter, the pre-built primitives are registered under their
fixed identities, and every trie entry is coherent with the intern table. -/
structure WFCache (tc : TypeCache) : Prop where
  idsNodup : (tc.table.map Prod.snd).Nodup
  idsBound : ∀ p ∈ tc.table, p.2 < tc.nextId
  prims : ∀ k, isPrimitiveKind k = true →
    lookupDesc tc.table (TypeDesc.PrimitiveDesc k) = some (kindCode k)
  trieOK : ∀ e ∈ tc.trie, TrieEntryOK tc.table e.1 e.2

/-- Frame of a decode step: the stream is read-only, the chunk-fetch
collaborator is never invoked, and the cache only grows (established lookups
and well-formedness are preserved). -/
def Pres {α : Type} (m : DecM α) : Prop :=
  ∀ s a s', m s = some (a, s') →
    s'.toks = s.toks ∧ s'.fetches = s.fetches ∧ lookupMono s.tc s'.tc ∧
      (WFCache s.tc → WFCache s'.tc)

/-- Two decoder states aligned for a determinism comparison: same stream and
cursor, both caches well-formed (the caches themselves may differ). -/
def Aligned (s₁ s₂ : DecState) : Prop :=
  s₁.toks = s₂.toks ∧ s₁.pos = s₂.pos ∧ WFCache s₁.tc ∧ WFCache s₂.tc

/-- Cache-independence of a pair of decode steps: from aligned states they
fail together, and on success their results are related and their cursors
agree. -/
def AgreeR {α : Type} (m₁ m₂ : DecM α) (R : α → α → Prop) : Prop :=
  ∀ s₁ s₂, Aligned s₁ s₂ →
    ((m₁ s₁ = none) ↔ (m₂ s₂ = none)) ∧
    ∀ a₁ s₁' a₂ s₂', m₁ s₁ = some (a₁, s₁') → m₂ s₂ = some (a₂, s₂') →
      R a₁ a₂ ∧ s₁'.pos = s₂'.pos

/-- Result relation for types decoded against different caches: structural
equality of the canonical descriptors. -/
def descR (t₁ t₂ : Typ) : Prop := t₁.desc = t₂.desc

/-- Result relation for decoded field-pair lists: names and structural field
types coincide. -/
def pairsR (ps qs : List (String × Typ)) : Prop :=
  ps.map (fun p => (p.1, p.2.desc)) = qs.map (fun q => (q.1, q.2.desc))

/-- Shared read shape of the struct fast path and full path (for
specification only): struct name, field count, field pairs. -/
def readStructShape (f : Nat) : DecM (String × List (String × Typ)) := do
  let name ← readString
  let count ← readUint32
  let pairs ← readFieldPairs f count
  pure (name, pairs)

/-- Characterization of the struct value decode: n values are read back to
back by full recursive value decodes, in order. -/
inductive ReadsNValues (f : Nat) : Nat → DecState → List Value → DecState → Prop where
  | nil (s : DecState) : ReadsNValues f 0 s [] s
  | cons {n : Nat} {s s₁ s' : DecState} {v : Value} {vs : List Value} :
      readValue f s = some (v, s₁) → ReadsNValues f n s₁ vs s' →
      ReadsNValues f (n+1) s (v :: vs) s'

/-- The kind codes are pairwise distinct. -/
theorem kindCode_inj (k₁ k₂ : NomsKind) (h : kindCode k₁ = kindCode k₂) : k₁ = k₂ := by
  revert h
  cases k₁ <;> cases k₂ <;> decide

/-- The string segment of the structural key is prefix-free: it determines the
string and the remainder of the key. -/
theorem encStr_cancel (s₁ s₂ : String) (r₁ r₂ : List Nat)
    (h : encStr s₁ ++ r₁ = encStr s₂ ++ r₂) : s₁ = s₂ ∧ r₁ = r₂ := by
  unfold encStr at h
  rw [List.cons_append, List.cons_append] at h
  injection h with hlen htl
  have hlen' : (s₁.data.map Char.toNat).length = (s₂.data.map Char.toNat).length := by
    rw [List.length_map, List.length_map]
    exact hlen
  obtain ⟨hmap, hr⟩ := List.append_inj htl hlen'
  refine ⟨String.ext ?_, hr⟩
  exact List.map_injective_iff.mpr (fun a b hab => Char.eq_of_val_eq (UInt32.ext hab)) hmap

mutual
/-- The structural key is prefix-free: it determines the descriptor and the
remainder of the key, so in particular it is injective. -/
theorem TypeDesc.enc_cancel : (a b : TypeDesc) → (r₁ r₂ : List Nat) →
    TypeDesc.enc a ++ r₁ = TypeDesc.enc b ++ r₂ → a = b ∧ r₁ = r₂
  | TypeDesc.PrimitiveDesc k₁, TypeDesc.PrimitiveDesc k₂, r₁, r₂, h =>
      have hk : kindCode k₁ = kindCode k₂ ∧ r₁ = r₂ := by
        simpa only [TypeDesc.enc, List.cons_append, List.nil_append, List.cons.injEq,
          eq_self_iff_true, true_and] using h
      ⟨by rw [kindCode_inj _ _ hk.1], hk.2⟩
  | TypeDesc.PrimitiveDesc _, TypeDesc.CompoundDesc _ _, _, _, h => by
      simp [TypeDesc.enc] at h
  | TypeDesc.PrimitiveDesc _, TypeDesc.StructDesc _ _, _, _, h => by
      simp [TypeDesc.enc] at h
  | TypeDesc.PrimitiveDesc _, TypeDesc.CycleDesc _, _, _, h => by
      simp [TypeDesc.enc] at h
  | TypeDesc.CompoundDesc _ _, TypeDesc.PrimitiveDesc _, _, _, h => by
      simp [TypeDesc.enc] at h
  | TypeDesc.CompoundDesc _ _, TypeDesc.StructDesc _ _, _, _, h => by
      simp [TypeDesc.enc] at h
  | TypeDesc.CompoundDesc _ _, TypeDesc.CycleDesc _, _, _, h => by
      simp [TypeDesc.enc] at h
  | TypeDesc.StructDesc _ _, TypeDesc.PrimitiveDesc _, _, _, h => by
      simp [TypeDesc.enc] at h
  | TypeDesc.StructDesc _ _, TypeDesc.CompoundDesc _ _, _, _, h => by
      simp [TypeDesc.enc] at h
  | TypeDesc.StructDesc _ _, TypeDesc.CycleDesc _, _, _, h => by
      simp [TypeDesc.enc] at h
  | TypeDesc.CycleDesc _, TypeDesc.PrimitiveDesc _, _, _, h => by
      simp [TypeDesc.enc] at h
  | TypeDesc.CycleDesc _, TypeDesc.CompoundDesc _ _, _, _, h => by
      simp [TypeDesc.enc] at h
  | TypeDesc.CycleDesc _, TypeDesc.StructDesc _ _, _, _, h => by
      simp [TypeDesc.enc] at h
  | TypeDesc.CycleDesc l₁, TypeDesc.CycleDesc l₂, r₁, r₂, h =>
      have hl : l₁ = l₂ ∧ r₁ = r₂ := by
        simpa only [TypeDesc.enc, List.cons_append, List.nil_append, List.cons.injEq,
          eq_self_iff_true, true_and] using h
      ⟨by rw [hl.1], hl.2⟩
  | TypeDesc.CompoundDesc k₁ es₁, TypeDesc.CompoundDesc k₂ es₂, r₁, r₂, h =>
      have hk : kindCode k₁ = kindCode k₂ ∧
          TypeDesc.encList es₁ ++ r₁ = TypeDesc.encList es₂ ++ r₂ := by
        simpa only [TypeDesc.enc, List.cons_append, List.cons.injEq, eq_self_iff_true,
          true_and] using h
      have ih := TypeDesc.encList_cancel es₁ es₂ r₁ r₂ hk.2
      ⟨by rw [kindCode_inj _ _ hk.1, ih.1], ih.2⟩
  | TypeDesc.StructDesc n₁ fs₁, TypeDesc.StructDesc n₂ fs₂, r₁, r₂, h =>
      have hs0 : encStr n₁ ++ (TypeDesc.encFields fs₁ ++ r₁) =
          encStr n₂ ++ (TypeDesc.encFields fs₂ ++ r₂) := by
        simpa only [TypeDesc.enc, List.cons_append, List.append_assoc, List.cons.injEq,
          eq_self_iff_true, true_and] using h
      have hs := encStr_cancel n₁ n₂ _ _ hs0
      have ih := TypeDesc.encFields_cancel fs₁ fs₂ r₁ r₂ hs.2
      ⟨by rw [hs.1, ih.1], ih.2⟩

theorem TypeDesc.encList_cancel : (l₁ l₂ : List TypeDesc) → (r₁ r₂ : List Nat) →
    TypeDesc.encList l₁ ++ r₁ = TypeDesc.encList l₂ ++ r₂ → l₁ = l₂ ∧ r₁ = r₂
  | [], [], r₁, r₂, h => ⟨rfl, by
      simpa only [TypeDesc.encList, List.cons_append, List.nil_append, List.cons.injEq,
        eq_self_iff_true, true_and] using h⟩
  | [], _ :: _, _, _, h => by
      simp [TypeDesc.encList] at h
  | _ :: _, [], _, _, h => by
      simp [TypeDesc.encList] at h
  | d₁ :: t₁, d₂ :: t₂, r₁, r₂, h =>
      have ht : TypeDesc.enc d₁ ++ (TypeDesc.encList t₁ ++ r₁) =
          TypeDesc.enc d₂ ++ (TypeDesc.encList t₂ ++ r₂) := by
        simpa only [TypeDesc.encList, List.cons_append, List.append_assoc, List.cons.injEq,
          eq_self_iff_true, true_and] using h
      have ihd := TypeDesc.enc_cancel d₁ d₂ _ _ ht
      have iht := TypeDesc.encList_cancel t₁ t₂ r₁ r₂ ihd.2
      ⟨by rw [ihd.1, iht.1], iht.2⟩

theorem TypeDesc.encFields_cancel :
    (l₁ l₂ : List (String × TypeDesc)) → (r₁ r₂ : List Nat) →
    TypeDesc.encFields l₁ ++ r₁ = TypeDesc.encFields l₂ ++ r₂ → l₁ = l₂ ∧ r₁ = r₂
  | [], [], r₁, r₂, h => ⟨rfl, by
      simpa only [TypeDesc.encFields, List.cons_append, List.nil_append, List.cons.injEq,
        eq_self_iff_true, true_and] using h⟩
  | [], _ :: _, _, _, h => by
      simp [TypeDesc.encFields] at h
  | _ :: _, [], _, _, h => by
      simp [TypeDesc.encFields] at h
  | (n₁, d₁) :: t₁, (n₂, d₂) :: t₂, r₁, r₂, h =>
      have ht : encStr n₁ ++ (TypeDesc.enc d₁ ++ (TypeDesc.encFields t₁ ++ r₁)) =
          encStr n₂ ++ (TypeDesc.enc d₂ ++ (TypeDesc.encFields t₂ ++ r₂)) := by
        simpa only [TypeDesc.encFields, List.cons_append, List.append_assoc, List.cons.injEq,
          eq_self_iff_true, true_and] using h
      have hs := encStr_cancel n₁ n₂ _ _ ht
      have ihd := TypeDesc.enc_cancel d₁ d₂ _ _ hs.2
      have iht := TypeDesc.encFields_cancel t₁ t₂ r₁ r₂ ihd.2
      ⟨by rw [hs.1, ihd.1, iht.1], iht.2⟩
end

/-- The structural key is injective. -/
theorem TypeDesc.enc_inj (a b : TypeDesc) (h : TypeDesc.enc a = TypeDesc.enc b) : a = b :=
  (TypeDesc.enc_cancel a b [] [] (by rw [List.append_nil, List.append_nil, h])).1

/-- The canonical member list of a union is determined by the member set
alone: any two member lists with the same elements — in any order, with any
multiplicities — normalize to one and the same canonical list (spec section 3:
a union is an unordered set of member types, deduplicated). -/
theorem normalizeUnion_canonical (ts₁ ts₂ : List TypeDesc)
    (h : ∀ d, d ∈ ts₁ ↔ d ∈ ts₂) : normalizeUnion ts₁ = normalizeUnion ts₂ := by
  unfold normalizeUnion
  have hperm : (List.insertionSort (fun a b => TypeDesc.enc a ≤ TypeDesc.enc b) ts₁.dedup).Perm
      (List.insertionSort (fun a b => TypeDesc.enc a ≤ TypeDesc.enc b) ts₂.dedup) :=
    (List.perm_insertionSort _ _).trans
      (((List.perm_ext_iff_of_nodup (List.nodup_dedup _) (List.nodup_dedup _)).mpr
        (fun a => by rw [List.mem_dedup, List.mem_dedup]; exact h a)).trans
        (List.perm_insertionSort _ _).symm)
  exact @List.eq_of_perm_of_sorted _ (fun a b => TypeDesc.enc a ≤ TypeDesc.enc b)
    ⟨fun a b h₁ h₂ => TypeDesc.enc_inj a b (le_antisymm h₁ h₂)⟩ _ _ hperm
    (@List.sorted_insertionSort _ (fun a b => TypeDesc.enc a ≤ TypeDesc.enc b) inferInstance
      ⟨fun a b => le_total _ _⟩ ⟨fun a b c => le_trans⟩ _)
    (@List.sorted_insertionSort _ (fun a b => TypeDesc.enc a ≤ TypeDesc.enc b) inferInstance
      ⟨fun a b => le_total _ _⟩ ⟨fun a b c => le_trans⟩ _)

/-- Requesting a union over the same member set — regardless of the order and
multiplicity in which the members were supplied — is one and the same cache
request: it yields the identical interned instance and the identical cache. -/
theorem getCompoundType_union_canonical (elems₁ elems₂ : List Typ) (tc : TypeCache)
    (h : ∀ d, d ∈ elems₁.map Typ.desc ↔ d ∈ elems₂.map Typ.desc) :
    getCompoundType NomsKind.UnionKind elems₁ tc =
      getCompoundType NomsKind.UnionKind elems₂ tc := by
  show getOrIntern (TypeDesc.CompoundDesc NomsKind.UnionKind
      (normalizeUnion (elems₁.map Typ.desc))) tc =
    getOrIntern (TypeDesc.CompoundDesc NomsKind.UnionKind
      (normalizeUnion (elems₂.map Typ.desc))) tc
  rw [normalizeUnion_canonical _ _ h]

theorem bind_run {α β : Type} (m : DecM α) (g : α → DecM β) (s : DecState) :
    (m >>= g) s = match m s with
      | some (a, s') => g a s'
      | none => none := rfl

theorem pure_run {α : Type} (a : α) (s : DecState) : (pure a : DecM α) s = some (a, s) := rfl

theorem failM_run {α : Type} (s : DecState) : (failM : DecM α) s = none := rfl

theorem bind_eq_some {α β : Type} {m : DecM α} {g : α → DecM β} {s : DecState}
    {b : β} {s' : DecState} :
    (m >>= g) s = some (b, s') ↔ ∃ a s₁, m s = some (a, s₁) ∧ g a s₁ = some (b, s') := by
  rw [bind_run]
  cases h : m s with
  | none => simp
  | some p =>
    obtain ⟨a, s₁⟩ := p
    constructor
    · intro hg
      exact ⟨a, s₁, rfl, hg⟩
    · rintro ⟨a', s₁', h1, h2⟩
      injection h1 with h1
      injection h1 with h1a h1s
      rw [h1a, h1s]
      exact h2

theorem bind_eq_none {α β : Type} {m : DecM α} {g : α → DecM β} {s : DecState} :
    (m >>= g) s = none ↔
      m s = none ∨ ∃ a s₁, m s = some (a, s₁) ∧ g a s₁ = none := by
  rw [bind_run]
  cases h : m s with
  | none => simp
  | some p =>
    obtain ⟨a, s₁⟩ := p
    constructor
    · intro hg
      exact Or.inr ⟨a, s₁, rfl, hg⟩
    · rintro (hn | ⟨a', s₁', h1, h2⟩)
      · cases hn
      · injection h1 with h1
        injection h1 with h1a h1s
        rw [h1a, h1s]
        exact h2

theorem lookupDesc_mem {l : List (TypeDesc × Nat)} {d : TypeDesc} {i : Nat}
    (h : lookupDesc l d = some i) : (d, i) ∈ l := by
  induction l with
  | nil => simp [lookupDesc] at h
  | cons p rest ih =>
    obtain ⟨d', i'⟩ := p
    rw [lookupDesc] at h
    by_cases hd : d' = d
    · rw [if_pos hd] at h
      injection h with h
      subst hd; subst h
      exact List.mem_cons_self _ _
    · rw [if_neg hd] at h
      exact List.mem_cons_of_mem _ (ih h)

theorem lookupDesc_inj {l : List (TypeDesc × Nat)} (hnd : (l.map Prod.snd).Nodup)
    {d₁ d₂ : TypeDesc} {i : Nat} (h₁ : lookupDesc l d₁ = some i)
    (h₂ : lookupDesc l d₂ = some i) : d₁ = d₂ := by
  induction l with
  | nil => simp [lookupDesc] at h₁
  | cons p rest ih =>
    obtain ⟨d₀, i₀⟩ := p
    rw [List.map_cons, List.nodup_cons] at hnd
    obtain ⟨hni, hnd⟩ := hnd
    rw [lookupDesc] at h₁ h₂
    by_cases e₁ : d₀ = d₁ <;> by_cases e₂ : d₀ = d₂
    · rw [← e₁, ← e₂]
    · rw [if_pos e₁] at h₁
      rw [if_neg e₂] at h₂
      injection h₁ with h₁
      rw [← h₁] at h₂
      exact absurd (List.mem_map_of_mem Prod.snd (lookupDesc_mem h₂)) hni
    · rw [if_neg e₁] at h₁
      rw [if_pos e₂] at h₂
      injection h₂ with h₂
      rw [← h₂] at h₁
      exact absurd (List.mem_map_of_mem Prod.snd (lookupDesc_mem h₁)) hni
    · rw [if_neg e₁] at h₁
      rw [if_neg e₂] at h₂
      exact ih hnd h₁ h₂

theorem trieFind_mem {l : List (List TrieTok × Typ)} {path : List TrieTok} {t : Typ}
    (h : trieFind l path = some t) : (path, t) ∈ l := by
  induction l with
  | nil => simp [trieFind] at h
  | cons p rest ih =>
    obtain ⟨p₀, t₀⟩ := p
    rw [trieFind] at h
    by_cases hp : p₀ = path
    · rw [if_pos hp] at h
      injection h with h
      subst hp; subst h
      exact List.mem_cons_self _ _
    · rw [if_neg hp] at h
      exact List.mem_cons_of_mem _ (ih h)

theorem lookupMono_refl (tc : TypeCache) : lookupMono tc tc := fun _ _ h => h

theorem lookupMono_trans {tc₁ tc₂ tc₃ : TypeCache} (h₁ : lookupMono tc₁ tc₂)
    (h₂ : lookupMono tc₂ tc₃) : lookupMono tc₁ tc₃ :=
  fun d i h => h₂ d i (h₁ d i h)

theorem lookupDesc_cons_none {table : List (TypeDesc × Nat)} {d : TypeDesc} {j : Nat}
    (hnone : lookupDesc table d = none) {d₀ : TypeDesc} {i₀ : Nat}
    (h₀ : lookupDesc table d₀ = some i₀) :
    lookupDesc ((d, j) :: table) d₀ = some i₀ := by
  rw [lookupDesc, if_neg, h₀]
  intro e
  rw [e, h₀] at hnone
  cases hnone

theorem getOrIntern_fst_desc (d : TypeDesc) (tc : TypeCache) :
    (getOrIntern d tc).1.desc = d := by
  unfold getOrIntern
  cases h : lookupDesc tc.table d <;> simp

theorem getOrIntern_trie (d : TypeDesc) (tc : TypeCache) :
    (getOrIntern d tc).2.trie = tc.trie := by
  unfold getOrIntern
  cases h : lookupDesc tc.table d <;> simp

theorem getOrIntern_reg (d : TypeDesc) (tc : TypeCache) :
    lookupDesc (getOrIntern d tc).2.table d = some (getOrIntern d tc).1.id := by
  unfold getOrIntern
  cases h : lookupDesc tc.table d with
  | none => simp [lookupDesc]
  | some i => simpa using h

theorem getOrIntern_mono (d : TypeDesc) (tc : TypeCache) :
    lookupMono tc (getOrIntern d tc).2 := by
  intro d₀ i₀ h₀
  unfold getOrIntern
  cases h : lookupDesc tc.table d with
  | none => simpa using lookupDesc_cons_none h h₀
  | some i => simpa using h₀

theorem TrieEntryOK_mono {t₁ t₂ : List (TypeDesc × Nat)} {p : List TrieTok} {t : Typ}
    (hm : ∀ d i, lookupDesc t₁ d = some i → lookupDesc t₂ d = some i)
    (h : TrieEntryOK t₁ p t) : TrieEntryOK t₂ p t := by
  obtain ⟨hreg, name, fields, ids, hdesc, hfa, hpath⟩ := h
  exact ⟨hm _ _ hreg, name, fields, ids, hdesc,
    hfa.imp (fun a b hab => hm _ _ hab), hpath⟩

theorem getOrIntern_wf {d : TypeDesc} {tc : TypeCache} (h : WFCache tc) :
    WFCache (getOrIntern d tc).2 := by
  unfold getOrIntern
  cases hl : lookupDesc tc.table d with
  | some i => simpa using h
  | none =>
    simp only
    constructor
    · rw [List.map_cons, List.nodup_cons]
      refine ⟨?_, h.idsNodup⟩
      intro hmem
      rw [List.mem_map] at hmem
      obtain ⟨p, hp, he⟩ := hmem
      exact absurd (h.idsBound p hp) (by rw [he]; exact lt_irrefl _)
    · intro p hp
      rcases List.mem_cons.mp hp with he | hp
      · rw [he]; exact Nat.lt_succ_self _
      · exact Nat.lt_trans (h.idsBound p hp) (Nat.lt_succ_self _)
    · intro k hk
      exact lookupDesc_cons_none hl (h.prims k hk)
    · intro e he
      exact TrieEntryOK_mono (fun d₀ i₀ h₀ => lookupDesc_cons_none hl h₀) (h.trieOK e he)

theorem fieldIdToks_spec {table : List (TypeDesc × Nat)} :
    ∀ {fds : List (String × TypeDesc)} {ps : List TrieTok},
      fieldIdToks table fds = some ps →
      ∃ ids : List Nat,
        List.Forall₂ (fun (fd : String × TypeDesc) (i : Nat) => lookupDesc table fd.2 = some i)
          fds ids ∧
        ps = fieldPathToks ((fds.map Prod.fst).zip ids) := by
  intro fds
  induction fds with
  | nil =>
    intro ps h
    rw [fieldIdToks] at h
    injection h with h
    exact ⟨[], List.Forall₂.nil, by rw [← h]; rfl⟩
  | cons fd rest ih =>
    intro ps h
    rw [fieldIdToks] at h
    cases hl : lookupDesc table fd.2 with
    | none => rw [hl] at h; cases h
    | some i =>
      rw [hl] at h
      cases hr : fieldIdToks table rest with
      | none => rw [hr] at h; cases h
      | some ps' =>
        rw [hr] at h
        injection h with h
        obtain ⟨ids, hfa, hps⟩ := ih hr
        refine ⟨i :: ids, List.Forall₂.cons hl hfa, ?_⟩
        rw [← h, hps]
        rfl

theorem makeStructType_fst (name : String) (fields : List (String × Typ)) (tc : TypeCache) :
    (makeStructType name fields tc).1 =
      (getOrIntern (TypeDesc.StructDesc name (fields.map (fun p => (p.1, p.2.desc)))) tc).1 := by
  unfold makeStructType
  cases h : triePathOf
      (getOrIntern (TypeDesc.StructDesc name (fields.map (fun p => (p.1, p.2.desc)))) tc).2.table
      name (fields.map (fun p => (p.1, p.2.desc))) <;> simp [h]

theorem makeStructType_fst_desc (name : String) (fields : List (String × Typ))
    (tc : TypeCache) :
    (makeStructType name fields tc).1.desc =
      TypeDesc.StructDesc name (fields.map (fun p => (p.1, p.2.desc))) := by
  rw [makeStructType_fst, getOrIntern_fst_desc]

theorem makeStructType_table (name : String) (fields : List (String × Typ)) (tc : TypeCache) :
    (makeStructType name fields tc).2.table =
      (getOrIntern (TypeDesc.StructDesc name (fields.map (fun p => (p.1, p.2.desc)))) tc).2.table := by
  unfold makeStructType
  cases h : triePathOf
      (getOrIntern (TypeDesc.StructDesc name (fields.map (fun p => (p.1, p.2.desc)))) tc).2.table
      name (fields.map (fun p => (p.1, p.2.desc))) <;> simp [h]

theorem makeStructType_mono (name : String) (fields : List (String × Typ)) (tc : TypeCache) :
    lookupMono tc (makeStructType name fields tc).2 := by
  intro d i h
  rw [makeStructType_table]
  exact getOrIntern_mono _ tc d i h

theorem makeStructType_wf {name : String} {fields : List (String × Typ)} {tc : TypeCache}
    (h : WFCache tc) : WFCache (makeStructType name fields tc).2 := by
  have hwf := getOrIntern_wf (d := TypeDesc.StructDesc name (fields.map (fun p => (p.1, p.2.desc)))) h
  unfold makeStructType
  cases hp : triePathOf
      (getOrIntern (TypeDesc.StructDesc name (fields.map (fun p => (p.1, p.2.desc)))) tc).2.table
      name (fields.map (fun p => (p.1, p.2.desc))) with
  | none => simp only [hp]; exact hwf
  | some path =>
    simp only [hp]
    constructor
    · exact hwf.idsNodup
    · exact hwf.idsBound
    · exact hwf.prims
    · intro e he
      rcases List.mem_cons.mp he with he | he
      · rw [he]
        rw [triePathOf] at hp
        cases hf : fieldIdToks
            (getOrIntern (TypeDesc.StructDesc name (fields.map (fun p => (p.1, p.2.desc)))) tc).2.table
            (fields.map (fun p => (p.1, p.2.desc))) with
        | none => rw [hf] at hp; cases hp
        | some ps =>
          rw [hf] at hp
          injection hp with hp
          obtain ⟨ids, hfa, hps⟩ := fieldIdToks_spec hf
          refine ⟨?_, name, fields.map (fun p => (p.1, p.2.desc)), ids, ?_, hfa, ?_⟩
          · rw [getOrIntern_fst_desc]
            exact getOrIntern_reg _ _
          · rw [getOrIntern_fst_desc]
          · rw [← hp, hps]
            rfl
      · exact hwf.trieOK e he

theorem getCompoundType_fst_desc (k : NomsKind) (elems : List Typ) (tc : TypeCache) :
    (getCompoundType k elems tc).1.desc =
      TypeDesc.CompoundDesc k
        (if k = NomsKind.UnionKind then normalizeUnion (elems.map Typ.desc)
         else elems.map Typ.desc) := by
  unfold getCompoundType
  rw [getOrIntern_fst_desc]

theorem getCompoundType_mono (k : NomsKind) (elems : List Typ) (tc : TypeCache) :
    lookupMono tc (getCompoundType k elems tc).2 := by
  unfold getCompoundType
  exact getOrIntern_mono _ tc

theorem getCompoundType_wf {k : NomsKind} {elems : List Typ} {tc : TypeCache}
    (h : WFCache tc) : WFCache (getCompoundType k elems tc).2 := by
  unfold getCompoundType
  exact getOrIntern_wf h

theorem getCompoundType_reg (k : NomsKind) (elems : List Typ) (tc : TypeCache) :
    lookupDesc (getCompoundType k elems tc).2.table (getCompoundType k elems tc).1.desc =
      some (getCompoundType k elems tc).1.id := by
  unfold getCompoundType
  rw [getOrIntern_fst_desc]
  exact getOrIntern_reg _ _

theorem getCycleType_fst_desc (level : Nat) (tc : TypeCache) :
    (getCycleType level tc).1.desc = TypeDesc.CycleDesc level := by
  unfold getCycleType
  exact getOrIntern_fst_desc _ _

theorem getCycleType_mono (level : Nat) (tc : TypeCache) :
    lookupMono tc (getCycleType level tc).2 := by
  unfold getCycleType
  exact getOrIntern_mono _ tc

theorem getCycleType_wf {level : Nat} {tc : TypeCache} (h : WFCache tc) :
    WFCache (getCycleType level tc).2 := by
  unfold getCycleType
  exact getOrIntern_wf h

theorem getCycleType_reg (level : Nat) (tc : TypeCache) :
    lookupDesc (getCycleType level tc).2.table (getCycleType level tc).1.desc =
      some (getCycleType level tc).1.id := by
  unfold getCycleType
  rw [getOrIntern_fst_desc]
  exact getOrIntern_reg _ _

theorem makeStructType_reg (name : String) (fields : List (String × Typ)) (tc : TypeCache) :
    lookupDesc (makeStructType name fields tc).2.table (makeStructType name fields tc).1.desc =
      some (makeStructType name fields tc).1.id := by
  rw [makeStructType_table, makeStructType_fst, getOrIntern_fst_desc]
  exact getOrIntern_reg _ _

theorem initCache_wf : WFCache initCache := by
  constructor
  · decide
  · decide
  · intro k hk
    cases k <;> revert hk <;> decide
  · intro e he
    simp [initCache] at he

theorem Pres_failM {α : Type} : Pres (failM : DecM α) := by
  intro s a s' h
  cases h

theorem Pres_pure {α : Type} (a : α) : Pres (pure a : DecM α) := by
  intro s b s' h
  rw [pure_run] at h
  injection h with h
  injection h with ha hs
  rw [← hs]
  exact ⟨rfl, rfl, lookupMono_refl _, id⟩

theorem Pres_bind {α β : Type} {m : DecM α} {g : α → DecM β} (hm : Pres m)
    (hg : ∀ a, Pres (g a)) : Pres (m >>= g) := by
  intro s b s' h
  rw [bind_eq_some] at h
  obtain ⟨a, s₁, h1, h2⟩ := h
  obtain ⟨t1, f1, m1, w1⟩ := hm s a s₁ h1
  obtain ⟨t2, f2, m2, w2⟩ := hg a s₁ b s' h2
  exact ⟨t2.trans t1, f2.trans f1, lookupMono_trans m1 m2, fun w => w2 (w1 w)⟩

theorem Pres_readTok : Pres readTok := by
  intro s a s' h
  unfold readTok at h
  cases ht : s.toks[s.pos]? with
  | none => rw [ht] at h; cases h
  | some t =>
    rw [ht] at h
    injection h with h
    injection h with ha hs
    rw [← hs]
    exact ⟨rfl, rfl, lookupMono_refl _, id⟩

theorem Pres_readUint8 : Pres readUint8 := by
  intro s a s' h
  unfold readUint8 at h
  cases ht : readTok s with
  | none => rw [ht] at h; cases h
  | some p =>
    rw [ht] at h
    obtain ⟨t, s₁⟩ := p
    cases t
    case uint8 n =>
      injection h with h
      injection h with ha hs
      rw [← hs]
      exact Pres_readTok s _ s₁ ht
    all_goals cases h

theorem Pres_readUint32 : Pres readUint32 := by
  intro s a s' h
  unfold readUint32 at h
  cases ht : readTok s with
  | none => rw [ht] at h; cases h
  | some p =>
    rw [ht] at h
    obtain ⟨t, s₁⟩ := p
    cases t
    case uint32 n =>
      injection h with h
      injection h with ha hs
      rw [← hs]
      exact Pres_readTok s _ s₁ ht
    all_goals cases h

theorem Pres_readUint64 : Pres readUint64 := by
  intro s a s' h
  unfold readUint64 at h
  cases ht : readTok s with
  | none => rw [ht] at h; cases h
  | some p =>
    rw [ht] at h
    obtain ⟨t, s₁⟩ := p
    cases t
    case uint64 n =>
      injection h with h
      injection h with ha hs
      rw [← hs]
      exact Pres_readTok s _ s₁ ht
    all_goals cases h

theorem Pres_readBool : Pres readBool := by
  intro s a s' h
  unfold readBool at h
  cases ht : readTok s with
  | none => rw [ht] at h; cases h
  | some p =>
    rw [ht] at h
    obtain ⟨t, s₁⟩ := p
    cases t
    case boolT b =>
      injection h with h
      injection h with ha hs
      rw [← hs]
      exact Pres_readTok s _ s₁ ht
    all_goals cases h

theorem Pres_readBytes : Pres readBytes := by
  intro s a s' h
  unfold readBytes at h
  cases ht : readTok s with
  | none => rw [ht] at h; cases h
  | some p =>
    rw [ht] at h
    obtain ⟨t, s₁⟩ := p
    cases t
    case bytes bs =>
      injection h with h
      injection h with ha hs
      rw [← hs]
      exact Pres_readTok s _ s₁ ht
    all_goals cases h

theorem Pres_readString : Pres readString := by
  intro s a s' h
  unfold readString at h
  cases ht : readTok s with
  | none => rw [ht] at h; cases h
  | some p =>
    rw [ht] at h
    obtain ⟨t, s₁⟩ := p
    cases t
    case strT x =>
      injection h with h
      injection h with ha hs
      rw [← hs]
      exact Pres_readTok s _ s₁ ht
    all_goals cases h

theorem Pres_readIdent : Pres readIdent := Pres_readString

theorem Pres_readHash : Pres readHash := by
  intro s a s' h
  unfold readHash at h
  cases ht : readTok s with
  | none => rw [ht] at h; cases h
  | some p =>
    rw [ht] at h
    obtain ⟨t, s₁⟩ := p
    cases t
    case hashT x =>
      injection h with h
      injection h with ha hs
      rw [← hs]
      exact Pres_readTok s _ s₁ ht
    all_goals cases h

theorem Pres_readNumber : Pres readNumber := by
  intro s a s' h
  unfold readNumber at h
  cases ht : readTok s with
  | none => rw [ht] at h; cases h
  | some p =>
    rw [ht] at h
    obtain ⟨t, s₁⟩ := p
    cases t
    case number q =>
      injection h with h
      injection h with ha hs
      rw [← hs]
      exact Pres_readTok s _ s₁ ht
    all_goals cases h

theorem Pres_getPos : Pres getPos := by
  intro s a s' h
  injection h with h
  injection h with ha hs
  rw [← hs]
  exact ⟨rfl, rfl, lookupMono_refl _, id⟩

theorem Pres_seekTo (p : Nat) : Pres (seekTo p) := by
  intro s a s' h
  injection h with h
  injection h with ha hs
  rw [← hs]
  exact ⟨rfl, rfl, lookupMono_refl _, id⟩

theorem Pres_getCache : Pres getCache := by
  intro s a s' h
  injection h with h
  injection h with ha hs
  rw [← hs]
  exact ⟨rfl, rfl, lookupMono_refl _, id⟩

theorem Pres_liftTC {α : Type} (op : TypeCache → α × TypeCache)
    (hmono : ∀ tc, lookupMono tc (op tc).2)
    (hwf : ∀ tc, WFCache tc → WFCache (op tc).2) : Pres (liftTC op) := by
  intro s a s' h
  unfold liftTC at h
  injection h with h
  injection h with ha hs
  rw [← hs]
  exact ⟨rfl, rfl, hmono s.tc, hwf s.tc⟩

theorem Pres_readN {α : Type} {m : DecM α} (hm : Pres m) : ∀ n, Pres (readN m n) := by
  intro n
  induction n with
  | zero =>
    simp only [readN]
    exact Pres_pure _
  | succ n ih =>
    simp only [readN]
    exact Pres_bind hm (fun a => Pres_bind ih (fun as => Pres_pure _))

theorem Pres_readKind : Pres readKind := by
  unfold readKind
  apply Pres_bind Pres_readUint8
  intro n
  cases h : kindOfByte n with
  | none => simp only [h]; exact Pres_failM
  | some k => simp only [h]; exact Pres_pure _

theorem Pres_readRef (t : Typ) : Pres (readRef t) := by
  unfold readRef
  exact Pres_bind Pres_readHash (fun h => Pres_bind Pres_readUint64 (fun height => Pres_pure _))

theorem presAll : ∀ f : Nat,
    Pres (readType f) ∧ (∀ c, Pres (readFieldPairs f c)) ∧
    Pres (readCachedStructType f) ∧ Pres (readStructTypeFull f) ∧
    Pres (readStructType f) ∧ Pres (readUnionType f) ∧
    Pres (readValue f) ∧ Pres (readValueSequence f) ∧
    Pres (readMapLeafSequence f) ∧ Pres (readMetaTuple f) ∧
    Pres (readMetaSequence f) ∧ (∀ t, Pres (readStruct f t)) := by
  intro f
  induction f with
  | zero =>
    simp only [readType, readFieldPairs, readCachedStructType, readStructTypeFull,
      readStructType, readUnionType, readValue, readValueSequence, readMapLeafSequence,
      readMetaTuple, readMetaSequence, readStruct]
    exact ⟨Pres_failM, fun _ => Pres_failM, Pres_failM, Pres_failM, Pres_failM, Pres_failM,
      Pres_failM, Pres_failM, Pres_failM, Pres_failM, Pres_failM, fun _ => Pres_failM⟩
  | succ f ih =>
    obtain ⟨ihT, ihFP, ihC, ihF, ihS, ihU, ihV, ihVS, ihML, ihMT, ihMS, ihSt⟩ := ih
    refine ⟨?_, ?_, ?_, ?_, ?_, ?_, ?_, ?_, ?_, ?_, ?_, ?_⟩
    · simp only [readType]
      apply Pres_bind Pres_readKind
      intro k
      cases k
      case BoolKind => exact Pres_pure _
      case NumberKind => exact Pres_pure _
      case StringKind => exact Pres_pure _
      case BlobKind => exact Pres_pure _
      case ValueKind => exact Pres_pure _
      case TypeKind => exact Pres_pure _
      case ListKind =>
        exact Pres_bind ihT (fun e => Pres_liftTC _
          (fun tc => getCompoundType_mono _ _ tc) (fun tc hw => getCompoundType_wf hw))
      case MapKind =>
        exact Pres_bind ihT (fun kt => Pres_bind ihT (fun vt => Pres_liftTC _
          (fun tc => getCompoundType_mono _ _ tc) (fun tc hw => getCompoundType_wf hw)))
      case RefKind =>
        exact Pres_bind ihT (fun e => Pres_liftTC _
          (fun tc => getCompoundType_mono _ _ tc) (fun tc hw => getCompoundType_wf hw))
      case SetKind =>
        exact Pres_bind ihT (fun e => Pres_liftTC _
          (fun tc => getCompoundType_mono _ _ tc) (fun tc hw => getCompoundType_wf hw))
      case StructKind => exact ihS
      case UnionKind => exact ihU
      case CycleKind =>
        exact Pres_bind Pres_readUint32 (fun level => Pres_liftTC _
          (fun tc => getCycleType_mono _ tc) (fun tc hw => getCycleType_wf hw))
    · intro c
      simp only [readFieldPairs]
      exact Pres_readN
        (Pres_bind Pres_readString (fun fn => Pres_bind ihT (fun ft => Pres_pure _))) c
    · simp only [readCachedStructType]
      apply Pres_bind Pres_readIdent
      intro name
      apply Pres_bind Pres_readUint32
      intro count
      apply Pres_bind (ihFP count)
      intro pairs
      exact Pres_bind Pres_getCache (fun tc => Pres_pure _)
    · simp only [readStructTypeFull]
      apply Pres_bind Pres_readString
      intro name
      apply Pres_bind Pres_readUint32
      intro count
      apply Pres_bind (ihFP count)
      intro fields
      exact Pres_liftTC _ (fun tc => makeStructType_mono _ _ tc)
        (fun tc hw => makeStructType_wf hw)
    · simp only [readStructType]
      apply Pres_bind Pres_getPos
      intro pos
      apply Pres_bind ihC
      intro cached
      cases cached with
      | some t => exact Pres_pure _
      | none => exact Pres_bind (Pres_seekTo pos) (fun u => ihF)
    · simp only [readUnionType]
      apply Pres_bind Pres_readUint32
      intro l
      apply Pres_bind (Pres_readN ihT l)
      intro ts
      exact Pres_liftTC _ (fun tc => getCompoundType_mono _ _ tc)
        (fun tc hw => getCompoundType_wf hw)
    · simp only [readValue]
      apply Pres_bind ihT
      intro t
      generalize kindOfDesc t.desc = k
      cases k
      case BoolKind => exact Pres_bind Pres_readBool (fun b => Pres_pure _)
      case NumberKind => exact Pres_bind Pres_readNumber (fun q => Pres_pure _)
      case StringKind => exact Pres_bind Pres_readString (fun x => Pres_pure _)
      case BlobKind =>
        apply Pres_bind Pres_readBool
        intro isMeta
        cases isMeta
        · exact Pres_bind Pres_readBytes (fun b => Pres_pure _)
        · exact Pres_bind ihMS (fun data => Pres_pure _)
      case ValueKind => exact Pres_failM
      case ListKind =>
        apply Pres_bind Pres_readBool
        intro isMeta
        cases isMeta
        · exact Pres_bind ihVS (fun data => Pres_pure _)
        · exact Pres_bind ihMS (fun data => Pres_pure _)
      case MapKind =>
        apply Pres_bind Pres_readBool
        intro isMeta
        cases isMeta
        · exact Pres_bind ihML (fun data => Pres_pure _)
        · exact Pres_bind ihMS (fun data => Pres_pure _)
      case RefKind => exact Pres_readRef t
      case SetKind =>
        apply Pres_bind Pres_readBool
        intro isMeta
        cases isMeta
        · exact Pres_bind ihVS (fun data => Pres_pure _)
        · exact Pres_bind ihMS (fun data => Pres_pure _)
      case StructKind => exact ihSt t
      case TypeKind => exact Pres_bind ihT (fun t₂ => Pres_pure _)
      case CycleKind => exact Pres_failM
      case UnionKind => exact Pres_failM
    · simp only [readValueSequence]
      apply Pres_bind Pres_readUint32
      intro count
      exact Pres_readN ihV count
    · simp only [readMapLeafSequence]
      apply Pres_bind Pres_readUint32
      intro count
      exact Pres_readN (Pres_bind ihV (fun k => Pres_bind ihV (fun v => Pres_pure _))) count
    · simp only [readMetaTuple]
      apply Pres_bind ihV
      intro v₀
      cases v₀
      case refV r =>
        exact Pres_bind ihV (fun v => Pres_bind Pres_readUint64 (fun numLeaves => Pres_pure _))
      all_goals exact Pres_failM
    · simp only [readMetaSequence]
      apply Pres_bind Pres_readUint32
      intro count
      exact Pres_readN ihMT count
    · intro t
      simp only [readStruct]
      generalize t.desc = d
      cases d
      case StructDesc name fields =>
        exact Pres_bind (Pres_readN ihV _) (fun values => Pres_pure _)
      all_goals exact Pres_failM

theorem getPos_run (s : DecState) : getPos s = some (s.pos, s) := rfl

theorem seekTo_run (p : Nat) (s : DecState) : seekTo p s = some ((), { s with pos := p }) := rfl

theorem getCache_run (s : DecState) : getCache s = some (s.tc, s) := rfl

theorem liftTC_run {α : Type} (op : TypeCache → α × TypeCache) (s : DecState) :
    liftTC op s = some ((op s.tc).1, { s with tc := (op s.tc).2 }) := rfl

theorem regAll : ∀ f : Nat,
    (∀ s t s', WFCache s.tc → readType f s = some (t, s') →
      lookupDesc s'.tc.table t.desc = some t.id) ∧
    (∀ s r s', WFCache s.tc → readCachedStructType f s = some (r, s') →
      ∀ t, r = some t → lookupDesc s'.tc.table t.desc = some t.id) ∧
    (∀ s t s', WFCache s.tc → readStructTypeFull f s = some (t, s') →
      lookupDesc s'.tc.table t.desc = some t.id) ∧
    (∀ s t s', WFCache s.tc → readStructType f s = some (t, s') →
      lookupDesc s'.tc.table t.desc = some t.id) ∧
    (∀ s t s', WFCache s.tc → readUnionType f s = some (t, s') →
      lookupDesc s'.tc.table t.desc = some t.id) := by
  intro f
  induction f with
  | zero =>
    refine ⟨?_, ?_, ?_, ?_, ?_⟩ <;>
      · intro s t s' hwf h
        simp only [readType, readCachedStructType, readStructTypeFull, readStructType,
          readUnionType] at h
        exact Option.noConfusion h
  | succ f ih =>
    obtain ⟨ihT, ihC, ihF, ihS, ihU⟩ := ih
    obtain ⟨pT, pFP, pC, pF, pS, pU, pV, pVS, pML, pMT, pMS, pSt⟩ := presAll f
    refine ⟨?_, ?_, ?_, ?_, ?_⟩
    · -- readType
      intro s t s' hwf h
      simp only [readType] at h
      rw [bind_eq_some] at h
      obtain ⟨k, s₁, hk, h⟩ := h
      have hwf₁ := (Pres_readKind s k s₁ hk).2.2.2 hwf
      split at h
      · -- ListKind
        rw [bind_eq_some] at h
        obtain ⟨e, s₂, he, hl⟩ := h
        rw [liftTC_run] at hl
        injection hl with hl
        injection hl with hl1 hl2
        rw [← hl1, ← hl2]
        exact getCompoundType_reg _ _ _
      · -- MapKind
        rw [bind_eq_some] at h
        obtain ⟨kt, s₂, hkt, h⟩ := h
        rw [bind_eq_some] at h
        obtain ⟨vt, s₃, hvt, hl⟩ := h
        rw [liftTC_run] at hl
        injection hl with hl
        injection hl with hl1 hl2
        rw [← hl1, ← hl2]
        exact getCompoundType_reg _ _ _
      · -- RefKind
        rw [bind_eq_some] at h
        obtain ⟨e, s₂, he, hl⟩ := h
        rw [liftTC_run] at hl
        injection hl with hl
        injection hl with hl1 hl2
        rw [← hl1, ← hl2]
        exact getCompoundType_reg _ _ _
      · -- SetKind
        rw [bind_eq_some] at h
        obtain ⟨e, s₂, he, hl⟩ := h
        rw [liftTC_run] at hl
        injection hl with hl
        injection hl with hl1 hl2
        rw [← hl1, ← hl2]
        exact getCompoundType_reg _ _ _
      · -- StructKind
        exact ihS s₁ t s' hwf₁ h
      · -- UnionKind
        exact ihU s₁ t s' hwf₁ h
      · -- CycleKind
        rw [bind_eq_some] at h
        obtain ⟨level, s₂, hlv, hl⟩ := h
        rw [liftTC_run] at hl
        injection hl with hl
        injection hl with hl1 hl2
        rw [← hl1, ← hl2]
        exact getCycleType_reg _ _
      · -- primitive catch-all
        split at h
        · rw [pure_run] at h
          injection h with h
          injection h with h1 h2
          rw [← h1, ← h2]
          next hik =>
            exact hwf₁.prims _ hik
        · exact Option.noConfusion h
    · -- readCachedStructType
      intro s r s' hwf h
      simp only [readCachedStructType] at h
      rw [bind_eq_some] at h
      obtain ⟨name, s₁, h₁, h⟩ := h
      rw [bind_eq_some] at h
      obtain ⟨count, s₂, h₂, h⟩ := h
      rw [bind_eq_some] at h
      obtain ⟨pairs, s₃, h₃, h⟩ := h
      rw [bind_eq_some] at h
      obtain ⟨tcv, s₄, h₄, h⟩ := h
      rw [getCache_run] at h₄
      injection h₄ with h₄
      injection h₄ with h₄1 h₄2
      rw [pure_run] at h
      injection h with h
      injection h with hr hs
      intro t hrt
      rw [hrt] at hr
      have hwf₃ : WFCache s₃.tc := by
        have w1 := (Pres_readIdent s name s₁ h₁).2.2.2 hwf
        have w2 := (Pres_readUint32 s₁ count s₂ h₂).2.2.2 w1
        exact (pFP count s₂ pairs s₃ h₃).2.2.2 w2
      have hmem := trieFind_mem (l := tcv.trie) hr
      rw [← h₄1] at hmem
      have hok := hwf₃.trieOK _ hmem
      rw [← hs, ← h₄2]
      exact hok.1
    · -- readStructTypeFull
      intro s t s' hwf h
      simp only [readStructTypeFull] at h
      rw [bind_eq_some] at h
      obtain ⟨name, s₁, h₁, h⟩ := h
      rw [bind_eq_some] at h
      obtain ⟨count, s₂, h₂, h⟩ := h
      rw [bind_eq_some] at h
      obtain ⟨fields, s₃, h₃, hl⟩ := h
      rw [liftTC_run] at hl
      injection hl with hl
      injection hl with hl1 hl2
      rw [← hl1, ← hl2]
      exact makeStructType_reg _ _ _
    · -- readStructType
      intro s t s' hwf h
      simp only [readStructType] at h
      rw [bind_eq_some] at h
      obtain ⟨pos, s₁, hp, h⟩ := h
      rw [getPos_run] at hp
      injection hp with hp
      injection hp with hp1 hp2
      rw [bind_eq_some] at h
      obtain ⟨cached, s₂, hc, h⟩ := h
      have hwf₁ : WFCache s₁.tc := by rw [← hp2]; exact hwf
      have hwf₂ := (pC s₁ cached s₂ hc).2.2.2 hwf₁
      split at h
      · -- trie hit
        next t₀ =>
          rw [pure_run] at h
          injection h with h
          injection h with h1 h2
          rw [← h1, ← h2]
          exact ihC s₁ (some t₀) s₂ hwf₁ hc t₀ rfl
      · -- trie miss, full path
        rw [bind_eq_some] at h
        obtain ⟨u, s₃, hu, h⟩ := h
        rw [seekTo_run] at hu
        injection hu with hu
        injection hu with hu1 hu2
        have hwf₃ : WFCache s₃.tc := by rw [← hu2]; exact hwf₂
        exact ihF s₃ t s' hwf₃ h
    · -- readUnionType
      intro s t s' hwf h
      simp only [readUnionType] at h
      rw [bind_eq_some] at h
      obtain ⟨l, s₁, h₁, h⟩ := h
      rw [bind_eq_some] at h
      obtain ⟨ts, s₂, h₂, hl⟩ := h
      rw [liftTC_run] at hl
      injection hl with hl
      injection hl with hl1 hl2
      rw [← hl1, ← hl2]
      exact getCompoundType_reg _ _ _

theorem readFieldPairs_reg (f : Nat) :
    ∀ c s ps s', WFCache s.tc → readFieldPairs f c s = some (ps, s') →
      ∀ p ∈ ps, lookupDesc s'.tc.table p.2.desc = some p.2.id := by
  cases f with
  | zero =>
    intro c s ps s' hwf h
    simp only [readFieldPairs] at h
    exact Option.noConfusion h
  | succ f =>
    intro c
    induction c with
    | zero =>
      intro s ps s' hwf h
      simp only [readFieldPairs, readN, pure_run, Option.some.injEq, Prod.mk.injEq] at h
      intro p hp
      rw [← h.1] at hp
      simp at hp
    | succ c ihc =>
      intro s ps s' hwf h
      simp only [readFieldPairs, readN] at h
      rw [bind_eq_some] at h
      obtain ⟨p₀, s₁, hp₀, h⟩ := h
      rw [bind_eq_some] at h
      obtain ⟨ps', s₂, hps', hpure⟩ := h
      rw [pure_run] at hpure
      injection hpure with hpure
      injection hpure with hpu1 hpu2
      rw [bind_eq_some] at hp₀
      obtain ⟨fn, sa, hfn, hp₀⟩ := hp₀
      rw [bind_eq_some] at hp₀
      obtain ⟨ft, sb, hft, hp₀⟩ := hp₀
      rw [pure_run] at hp₀
      injection hp₀ with hp₀
      injection hp₀ with hb1 hb2
      have hwfa := (Pres_readString s fn sa hfn).2.2.2 hwf
      have hreg := (regAll f).1 sa ft sb hwfa hft
      have hwfb := ((presAll f).1 sa ft sb hft).2.2.2 hwfa
      have presBody : Pres ((readString >>= fun fn => readType f >>= fun ft =>
          pure (fn, ft)) : DecM (String × Typ)) :=
        Pres_bind Pres_readString (fun fn => Pres_bind (presAll f).1 (fun ft => Pres_pure _))
      have hmono := ((Pres_readN presBody c) s₁ ps' s₂ hps').2.2.1
      intro p hp
      rw [← hpu1] at hp
      rcases List.mem_cons.mp hp with he | hmem
      · have hreg₁ : lookupDesc s₁.tc.table ft.desc = some ft.id := by
          rw [← hb2]; exact hreg
        have hreg₂ := hmono ft.desc ft.id hreg₁
        rw [he, ← hb1, ← hpu2]
        exact hreg₂
      · have hwf₁ : WFCache s₁.tc := by rw [← hb2]; exact hwfb
        have hres := ihc s₁ ps' s₂ hwf₁ (by simp only [readFieldPairs]; exact hps')
        rw [← hpu2]
        exact hres p hmem

theorem fieldPathToks_inj : ∀ {ps qs : List (String × Nat)},
    fieldPathToks ps = fieldPathToks qs → ps = qs := by
  intro ps
  induction ps with
  | nil =>
    intro qs h
    cases qs with
    | nil => rfl
    | cons q qs => simp [fieldPathToks] at h
  | cons p ps ih =>
    intro qs h
    cases qs with
    | nil => simp [fieldPathToks] at h
    | cons q qs =>
      rw [fieldPathToks, fieldPathToks] at h
      injection h with h1 h
      injection h with h2 h
      injection h1 with h1
      injection h2 with h2
      have htl := ih h
      have hpq : p = q := by
        obtain ⟨p1, p2⟩ := p
        obtain ⟨q1, q2⟩ := q
        rw [show (p1, p2).1 = p1 from rfl] at h1
        rw [show (p1, p2).2 = p2 from rfl] at h2
        rw [h1, h2]
      rw [hpq, htl]

theorem mkTriePath_inj {n₁ n₂ : String} {ps qs : List (String × Nat)}
    (h : mkTriePath n₁ ps = mkTriePath n₂ qs) : n₁ = n₂ ∧ ps = qs := by
  rw [mkTriePath, mkTriePath] at h
  injection h with h1 h2
  injection h1 with h1
  exact ⟨h1, fieldPathToks_inj h2⟩

theorem fields_from_trie {table : List (TypeDesc × Nat)} (hnd : (table.map Prod.snd).Nodup) :
    ∀ {fields : List (String × TypeDesc)} {ids : List Nat} {ps : List (String × Typ)},
      List.Forall₂ (fun (fd : String × TypeDesc) (i : Nat) => lookupDesc table fd.2 = some i)
        fields ids →
      (fields.map Prod.fst).zip ids = ps.map (fun p => (p.1, p.2.id)) →
      (∀ p ∈ ps, lookupDesc table p.2.desc = some p.2.id) →
      fields = ps.map (fun p => (p.1, p.2.desc)) := by
  intro fields ids ps hfa
  induction hfa generalizing ps with
  | nil =>
    intro hzip hreg
    cases ps with
    | nil => rfl
    | cons p ps' => simp at hzip
  | @cons fd i fds ids' hhead htail ih =>
    intro hzip hreg
    cases ps with
    | nil => simp at hzip
    | cons p ps' =>
      rw [List.map_cons, List.zip_cons_cons, List.map_cons] at hzip
      injection hzip with hz1 hz2
      injection hz1 with hza hzb
      have hpreg := hreg p (List.mem_cons_self p ps')
      rw [← hzb] at hpreg
      have hdesc : fd.2 = p.2.desc := lookupDesc_inj hnd hhead hpreg
      have hfd : fd = (p.1, p.2.desc) := by
        obtain ⟨f1, f2⟩ := fd
        rw [show ((f1, f2) : String × TypeDesc).1 = f1 from rfl] at hza
        rw [show ((f1, f2) : String × TypeDesc).2 = f2 from rfl] at hdesc
        rw [hza, hdesc]
      rw [List.map_cons, hfd]
      exact congrArg (List.cons _)
        (ih hz2 (fun q hq => hreg q (List.mem_cons_of_mem _ hq)))

theorem readCachedStructType_shape (f : Nat) (s : DecState) :
    readCachedStructType (f+1) s =
      match readStructShape f s with
      | some ((name, pairs), s') =>
          some (trieFind s'.tc.trie (mkTriePath name (pairs.map (fun p => (p.1, p.2.id)))), s')
      | none => none := by
  simp only [readCachedStructType, readStructShape, readIdent]
  cases h₁ : readString s with
  | none => simp [bind_run, h₁]
  | some p₁ =>
    obtain ⟨name, s₁⟩ := p₁
    cases h₂ : readUint32 s₁ with
    | none => simp [bind_run, h₁, h₂]
    | some p₂ =>
      obtain ⟨count, s₂⟩ := p₂
      cases h₃ : readFieldPairs f count s₂ with
      | none => simp [bind_run, h₁, h₂, h₃]
      | some p₃ =>
        obtain ⟨pairs, s₃⟩ := p₃
        simp [bind_run, h₁, h₂, h₃, getCache_run, pure_run]

theorem readStructTypeFull_shape (f : Nat) (s : DecState) :
    readStructTypeFull (f+1) s =
      match readStructShape f s with
      | some ((name, pairs), s') => liftTC (makeStructType name pairs) s'
      | none => none := by
  simp only [readStructTypeFull, readStructShape]
  cases h₁ : readString s with
  | none => simp [bind_run, h₁]
  | some p₁ =>
    obtain ⟨name, s₁⟩ := p₁
    cases h₂ : readUint32 s₁ with
    | none => simp [bind_run, h₁, h₂]
    | some p₂ =>
      obtain ⟨count, s₂⟩ := p₂
      cases h₃ : readFieldPairs f count s₂ with
      | none => simp [bind_run, h₁, h₂, h₃]
      | some p₃ =>
        obtain ⟨pairs, s₃⟩ := p₃
        simp [bind_run, h₁, h₂, h₃, pure_run]

theorem readStructShape_pres (f : Nat) : Pres (readStructShape f) := by
  unfold readStructShape
  apply Pres_bind Pres_readString
  intro name
  apply Pres_bind Pres_readUint32
  intro count
  exact Pres_bind ((presAll f).2.1 count) (fun pairs => Pres_pure _)

theorem readStructShape_reg (f : Nat) {s s' : DecState} {name : String}
    {pairs : List (String × Typ)} (hwf : WFCache s.tc)
    (h : readStructShape f s = some ((name, pairs), s')) :
    ∀ p ∈ pairs, lookupDesc s'.tc.table p.2.desc = some p.2.id := by
  unfold readStructShape at h
  rw [bind_eq_some] at h
  obtain ⟨name₀, s₁, h₁, h⟩ := h
  rw [bind_eq_some] at h
  obtain ⟨count, s₂, h₂, h⟩ := h
  rw [bind_eq_some] at h
  obtain ⟨pairs₀, s₃, h₃, hpure⟩ := h
  rw [pure_run] at hpure
  injection hpure with hpure
  injection hpure with hpu1 hpu2
  injection hpu1 with hn hp
  have hwf₁ := (Pres_readString s name₀ s₁ h₁).2.2.2 hwf
  have hwf₂ := (Pres_readUint32 s₁ count s₂ h₂).2.2.2 hwf₁
  have hres := readFieldPairs_reg f count s₂ pairs₀ s₃ hwf₂ h₃
  rw [← hp, ← hpu2]
  exact hres

theorem trieHit_desc {f : Nat} {s s' : DecState} {name : String}
    {pairs : List (String × Typ)} {t : Typ} (hwf : WFCache s.tc)
    (hshape : readStructShape f s = some ((name, pairs), s'))
    (hfind : trieFind s'.tc.trie
      (mkTriePath name (pairs.map (fun p => (p.1, p.2.id)))) = some t) :
    t.desc = TypeDesc.StructDesc name (pairs.map (fun p => (p.1, p.2.desc))) := by
  have hwf' := (readStructShape_pres f s _ s' hshape).2.2.2 hwf
  have hok := hwf'.trieOK _ (trieFind_mem hfind)
  obtain ⟨hregt, name₀, fields, ids, hdesc, hfa, hpath⟩ := hok
  obtain ⟨hn, hzip⟩ := mkTriePath_inj hpath
  have hfields := fields_from_trie hwf'.idsNodup hfa hzip.symm
    (readStructShape_reg f hwf hshape)
  rw [hdesc, hfields, ← hn]

theorem AgreeR_failM {α : Type} {R : α → α → Prop} : AgreeR (failM : DecM α) failM R :=
  fun s₁ s₂ _ => ⟨Iff.rfl, fun a₁ s₁' a₂ s₂' h₁ _ => Option.noConfusion h₁⟩

theorem AgreeR_pure {α : Type} {a₁ a₂ : α} {R : α → α → Prop} (h : R a₁ a₂) :
    AgreeR (pure a₁) (pure a₂) R := by
  intro s₁ s₂ hal
  constructor
  · constructor <;> intro hh <;> (rw [pure_run] at hh; exact Option.noConfusion hh)
  · intro b₁ s₁' b₂ s₂' h₁ h₂
    rw [pure_run] at h₁ h₂
    injection h₁ with h₁
    injection h₁ with h₁a h₁s
    injection h₂ with h₂
    injection h₂ with h₂a h₂s
    rw [← h₁a, ← h₂a, ← h₁s, ← h₂s]
    exact ⟨h, hal.2.1⟩

theorem AgreeR_mono {α : Type} {m₁ m₂ : DecM α} {R R' : α → α → Prop}
    (h : AgreeR m₁ m₂ R) (himp : ∀ a b, R a b → R' a b) : AgreeR m₁ m₂ R' := by
  intro s₁ s₂ hal
  obtain ⟨hiff, hsome⟩ := h s₁ s₂ hal
  refine ⟨hiff, fun a₁ s₁' a₂ s₂' h₁ h₂ => ?_⟩
  obtain ⟨hr, hp⟩ := hsome a₁ s₁' a₂ s₂' h₁ h₂
  exact ⟨himp _ _ hr, hp⟩

theorem AgreeR_bind {α β : Type} {m₁ m₂ : DecM α} {g₁ g₂ : α → DecM β}
    {R : α → α → Prop} {R' : β → β → Prop}
    (hm : AgreeR m₁ m₂ R) (hp₁ : Pres m₁) (hp₂ : Pres m₂)
    (hg : ∀ a₁ a₂, R a₁ a₂ → AgreeR (g₁ a₁) (g₂ a₂) R') :
    AgreeR (m₁ >>= g₁) (m₂ >>= g₂) R' := by
  intro s₁ s₂ hal
  obtain ⟨hiff, hsome⟩ := hm s₁ s₂ hal
  cases hm₁ : m₁ s₁ with
  | none =>
    have hm₂ : m₂ s₂ = none := hiff.mp hm₁
    constructor
    · simp [bind_run, hm₁, hm₂]
    · intro b₁ t₁ b₂ t₂ h₁ h₂
      rw [bind_run, hm₁] at h₁
      exact Option.noConfusion h₁
  | some p₁ =>
    obtain ⟨a₁, s₁'⟩ := p₁
    cases hm₂ : m₂ s₂ with
    | none =>
      have := hiff.mpr hm₂
      rw [hm₁] at this
      exact absurd this (by simp)
    | some p₂ =>
      obtain ⟨a₂, s₂'⟩ := p₂
      obtain ⟨hR, hpos⟩ := hsome a₁ s₁' a₂ s₂' hm₁ hm₂
      obtain ⟨ht₁, hf₁, hmo₁, hw₁⟩ := hp₁ s₁ a₁ s₁' hm₁
      obtain ⟨ht₂, hf₂, hmo₂, hw₂⟩ := hp₂ s₂ a₂ s₂' hm₂
      have hal' : Aligned s₁' s₂' :=
        ⟨by rw [ht₁, ht₂]; exact hal.1, hpos, hw₁ hal.2.2.1, hw₂ hal.2.2.2⟩
      obtain ⟨hiff', hsome'⟩ := hg a₁ a₂ hR s₁' s₂' hal'
      constructor
      · simp only [bind_run, hm₁, hm₂]
        exact hiff'
      · intro b₁ t₁ b₂ t₂ h₁ h₂
        rw [bind_run, hm₁] at h₁
        rw [bind_run, hm₂] at h₂
        exact hsome' b₁ t₁ b₂ t₂ h₁ h₂

theorem AgreeR_readTok : AgreeR readTok readTok Eq := by
  intro s₁ s₂ hal
  obtain ⟨htoks, hpos, _, _⟩ := hal
  have hidx : s₁.toks[s₁.pos]? = s₂.toks[s₂.pos]? := by rw [htoks, hpos]
  constructor
  · unfold readTok
    rw [hidx]
    cases h : s₂.toks[s₂.pos]? <;> simp
  · intro a₁ s₁' a₂ s₂' h₁ h₂
    unfold readTok at h₁ h₂
    rw [hidx] at h₁
    cases h : s₂.toks[s₂.pos]? with
    | none =>
      rw [h] at h₁
      exact Option.noConfusion h₁
    | some t =>
      rw [h] at h₁ h₂
      injection h₁ with h₁
      injection h₁ with h₁a h₁s
      injection h₂ with h₂
      injection h₂ with h₂a h₂s
      rw [← h₁a, ← h₂a, ← h₁s, ← h₂s]
      exact ⟨rfl, by simp [hpos]⟩

theorem AgreeR_of_sel {α : Type} (m : DecM α) (sel : Token → Option α)
    (hsel : ∀ s, m s = match readTok s with
      | some (t, s') =>
          match sel t with
          | some a => some (a, s')
          | none => none
      | none => none) : AgreeR m m Eq := by
  intro s₁ s₂ hal
  obtain ⟨hiff, hsome⟩ := AgreeR_readTok s₁ s₂ hal
  cases h₁ : readTok s₁ with
  | none =>
    have h₂ := hiff.mp h₁
    constructor
    · rw [hsel s₁, hsel s₂, h₁, h₂]
    · intro a₁ s₁' a₂ s₂' ha hb
      rw [hsel s₁, h₁] at ha
      exact Option.noConfusion ha
  | some p₁ =>
    obtain ⟨t, st₁⟩ := p₁
    cases h₂ : readTok s₂ with
    | none =>
      have h₁' := hiff.mpr h₂
      rw [h₁] at h₁'
      exact absurd h₁' (by simp)
    | some p₂ =>
      obtain ⟨t₂, st₂⟩ := p₂
      obtain ⟨hteq, hpos⟩ := hsome t st₁ t₂ st₂ h₁ h₂
      subst hteq
      constructor
      · rw [hsel s₁, hsel s₂, h₁, h₂]
        cases hs : sel t <;> simp [hs]
      · intro a₁ s₁' a₂ s₂' ha hb
        rw [hsel s₁, h₁] at ha
        rw [hsel s₂, h₂] at hb
        have ha' : (match sel t with
          | some a => some (a, st₁)
          | none => none) = some (a₁, s₁') := ha
        have hb' : (match sel t with
          | some a => some (a, st₂)
          | none => none) = some (a₂, s₂') := hb
        cases hs : sel t with
        | none =>
          rw [hs] at ha'
          exact Option.noConfusion ha'
        | some a =>
          rw [hs] at ha' hb'
          injection ha' with ha'
          injection ha' with ha1 ha2
          injection hb' with hb'
          injection hb' with hb1 hb2
          rw [← ha1, ← hb1, ← ha2, ← hb2]
          exact ⟨rfl, hpos⟩

theorem AgreeR_readUint8 : AgreeR readUint8 readUint8 Eq := by
  apply AgreeR_of_sel readUint8
    (fun t => match t with | Token.uint8 n => some n | _ => none)
  intro s
  unfold readUint8
  cases h : readTok s with
  | none => rfl
  | some p =>
    obtain ⟨t, s'⟩ := p
    cases t <;> rfl

theorem AgreeR_readUint32 : AgreeR readUint32 readUint32 Eq := by
  apply AgreeR_of_sel readUint32
    (fun t => match t with | Token.uint32 n => some n | _ => none)
  intro s
  unfold readUint32
  cases h : readTok s with
  | none => rfl
  | some p =>
    obtain ⟨t, s'⟩ := p
    cases t <;> rfl

theorem AgreeR_readUint64 : AgreeR readUint64 readUint64 Eq := by
  apply AgreeR_of_sel readUint64
    (fun t => match t with | Token.uint64 n => some n | _ => none)
  intro s
  unfold readUint64
  cases h : readTok s with
  | none => rfl
  | some p =>
    obtain ⟨t, s'⟩ := p
    cases t <;> rfl

theorem AgreeR_readBool : AgreeR readBool readBool Eq := by
  apply AgreeR_of_sel readBool
    (fun t => match t with | Token.boolT b => some b | _ => none)
  intro s
  unfold readBool
  cases h : readTok s with
  | none => rfl
  | some p =>
    obtain ⟨t, s'⟩ := p
    cases t <;> rfl

theorem AgreeR_readBytes : AgreeR readBytes readBytes Eq := by
  apply AgreeR_of_sel readBytes
    (fun t => match t with | Token.bytes bs => some bs | _ => none)
  intro s
  unfold readBytes
  cases h : readTok s with
  | none => rfl
  | some p =>
    obtain ⟨t, s'⟩ := p
    cases t <;> rfl

theorem AgreeR_readString : AgreeR readString readString Eq := by
  apply AgreeR_of_sel readString
    (fun t => match t with | Token.strT x => some x | _ => none)
  intro s
  unfold readString
  cases h : readTok s with
  | none => rfl
  | some p =>
    obtain ⟨t, s'⟩ := p
    cases t <;> rfl

theorem AgreeR_readHash : AgreeR readHash readHash Eq := by
  apply AgreeR_of_sel readHash
    (fun t => match t with | Token.hashT x => some x | _ => none)
  intro s
  unfold readHash
  cases h : readTok s with
  | none => rfl
  | some p =>
    obtain ⟨t, s'⟩ := p
    cases t <;> rfl

theorem AgreeR_readNumber : AgreeR readNumber readNumber Eq := by
  apply AgreeR_of_sel readNumber
    (fun t => match t with | Token.number q => some q | _ => none)
  intro s
  unfold readNumber
  cases h : readTok s with
  | none => rfl
  | some p =>
    obtain ⟨t, s'⟩ := p
    cases t <;> rfl

theorem AgreeR_liftTC {α : Type} (op₁ op₂ : TypeCache → α × TypeCache) {R : α → α → Prop}
    (hop : ∀ tc₁ tc₂, R (op₁ tc₁).1 (op₂ tc₂).1) : AgreeR (liftTC op₁) (liftTC op₂) R := by
  intro s₁ s₂ hal
  constructor
  · rw [liftTC_run, liftTC_run]
    simp
  · intro a₁ s₁' a₂ s₂' h₁ h₂
    rw [liftTC_run] at h₁ h₂
    injection h₁ with h₁
    injection h₁ with h₁a h₁s
    injection h₂ with h₂
    injection h₂ with h₂a h₂s
    rw [← h₁a, ← h₂a, ← h₁s, ← h₂s]
    exact ⟨hop _ _, hal.2.1⟩

theorem AgreeR_readN {α : Type} {m₁ m₂ : DecM α} {R : α → α → Prop}
    (hm : AgreeR m₁ m₂ R) (hp₁ : Pres m₁) (hp₂ : Pres m₂) :
    ∀ n, AgreeR (readN m₁ n) (readN m₂ n) (List.Forall₂ R) := by
  intro n
  induction n with
  | zero =>
    simp only [readN]
    exact AgreeR_pure List.Forall₂.nil
  | succ n ih =>
    simp only [readN]
    exact AgreeR_bind hm hp₁ hp₂ (fun a₁ a₂ hR =>
      AgreeR_bind ih (Pres_readN hp₁ n) (Pres_readN hp₂ n) (fun as₁ as₂ hRs =>
        AgreeR_pure (List.Forall₂.cons hR hRs)))

theorem AgreeR_readKind : AgreeR readKind readKind Eq := by
  unfold readKind
  apply AgreeR_bind AgreeR_readUint8 Pres_readUint8 Pres_readUint8
  intro n₁ n₂ hn
  subst hn
  cases h : kindOfByte n₁ with
  | none => simp only [h]; exact AgreeR_failM
  | some k => simp only [h]; exact AgreeR_pure rfl

theorem AgreeR_readRef {t₁ t₂ : Typ} (ht : descR t₁ t₂) :
    AgreeR (readRef t₁) (readRef t₂) Eq := by
  unfold readRef
  apply AgreeR_bind AgreeR_readHash Pres_readHash Pres_readHash
  intro h₁ h₂ hh
  subst hh
  apply AgreeR_bind AgreeR_readUint64 Pres_readUint64 Pres_readUint64
  intro ht₁ ht₂ hht
  subst hht
  apply AgreeR_pure
  rw [show t₁.desc = t₂.desc from ht]

theorem forall₂_eq {α : Type} : ∀ {l₁ l₂ : List α}, List.Forall₂ Eq l₁ l₂ → l₁ = l₂ := by
  intro l₁ l₂ h
  induction h with
  | nil => rfl
  | cons hh ht ih => rw [hh, ih]

theorem forall₂_pairs {ps qs : List (String × Typ)}
    (h : List.Forall₂ (fun (p q : String × Typ) => p.1 = q.1 ∧ p.2.desc = q.2.desc) ps qs) :
    pairsR ps qs := by
  induction h with
  | nil => rfl
  | cons hh ht ih =>
    unfold pairsR at ih ⊢
    rw [List.map_cons, List.map_cons, ih, hh.1, hh.2]

theorem forall₂_desc_map : ∀ {ts₁ ts₂ : List Typ}, List.Forall₂ descR ts₁ ts₂ →
    ts₁.map Typ.desc = ts₂.map Typ.desc := by
  intro ts₁ ts₂ h
  induction h with
  | nil => rfl
  | cons hh ht ih =>
    rw [List.map_cons, List.map_cons, ih, show _ from hh]

theorem readStructType_run (g : Nat) (s : DecState) :
    readStructType (g+1) s =
      match readCachedStructType g s with
      | none => none
      | some (some t, s') => some (t, s')
      | some (none, s') => readStructTypeFull g { s' with pos := s.pos } := by
  simp only [readStructType]
  cases h : readCachedStructType g s with
  | none => simp [bind_run, getPos_run, h]
  | some p =>
    obtain ⟨r, s'⟩ := p
    cases r with
    | some t => simp [bind_run, getPos_run, h, pure_run]
    | none => simp [bind_run, getPos_run, h, seekTo_run]

theorem readStructType_shape_none (g : Nat) {s : DecState}
    (h : readStructShape g s = none) : readStructType (g+2) s = none := by
  rw [readStructType_run (g+1) s, readCachedStructType_shape g s, h]

theorem readStructType_shape_hit (g : Nat) {s s' : DecState} {n : String}
    {ps : List (String × Typ)} {t : Typ}
    (hsh : readStructShape g s = some ((n, ps), s'))
    (hf : trieFind s'.tc.trie (mkTriePath n (ps.map (fun p => (p.1, p.2.id)))) = some t) :
    readStructType (g+2) s = some (t, s') := by
  rw [readStructType_run (g+1) s, readCachedStructType_shape g s, hsh]
  simp [hf]

theorem readStructType_shape_miss (g : Nat) {s s' : DecState} {n : String}
    {ps : List (String × Typ)}
    (hsh : readStructShape g s = some ((n, ps), s'))
    (hf : trieFind s'.tc.trie (mkTriePath n (ps.map (fun p => (p.1, p.2.id)))) = none) :
    readStructType (g+2) s = readStructTypeFull (g+1) { s' with pos := s.pos } := by
  rw [readStructType_run (g+1) s, readCachedStructType_shape g s, hsh]
  simp [hf]

theorem readStructTypeFull_of_shape (g : Nat) {s s' : DecState} {n : String}
    {ps : List (String × Typ)}
    (hsh : readStructShape g s = some ((n, ps), s')) :
    readStructTypeFull (g+1) s =
      some ((makeStructType n ps s'.tc).1, { s' with tc := (makeStructType n ps s'.tc).2 }) := by
  rw [readStructTypeFull_shape g s, hsh]
  rfl

theorem readStructType_agree_aux (g : Nat)
    (hSh : AgreeR (readStructShape g) (readStructShape g)
      (fun a b => a.1 = b.1 ∧ pairsR a.2 b.2)) :
    AgreeR (readStructType (g+2)) (readStructType (g+2)) descR := by
  intro s₁ s₂ hal
  obtain ⟨htoks, hpos, hwf₁, hwf₂⟩ := hal
  obtain ⟨shIff, shSome⟩ := hSh s₁ s₂ ⟨htoks, hpos, hwf₁, hwf₂⟩
  cases hsh₁ : readStructShape g s₁ with
  | none =>
    have hsh₂ := shIff.mp hsh₁
    constructor
    · rw [readStructType_shape_none g hsh₁, readStructType_shape_none g hsh₂]
    · intro a₁ u₁ a₂ u₂ h₁ h₂
      rw [readStructType_shape_none g hsh₁] at h₁
      exact Option.noConfusion h₁
  | some p₁ =>
    obtain ⟨⟨n₁, ps₁⟩, s₁'⟩ := p₁
    cases hsh₂ : readStructShape g s₂ with
    | none =>
      have hx := shIff.mpr hsh₂
      rw [hsh₁] at hx
      exact absurd hx (by simp)
    | some p₂ =>
      obtain ⟨⟨n₂, ps₂⟩, s₂'⟩ := p₂
      obtain ⟨⟨hn, hps⟩, hpos'⟩ := shSome _ _ _ _ hsh₁ hsh₂
      obtain ⟨htk₁, hfe₁, hmo₁, hwp₁⟩ := readStructShape_pres g s₁ _ s₁' hsh₁
      obtain ⟨htk₂, hfe₂, hmo₂, hwp₂⟩ := readStructShape_pres g s₂ _ s₂' hsh₂
      have hwf₁' := hwp₁ hwf₁
      have hwf₂' := hwp₂ hwf₂
      cases hf₁ : trieFind s₁'.tc.trie (mkTriePath n₁ (ps₁.map (fun p => (p.1, p.2.id)))) with
      | some t₁ =>
        have hd₁ := trieHit_desc hwf₁ hsh₁ hf₁
        have e₁ := readStructType_shape_hit g hsh₁ hf₁
        cases hf₂ : trieFind s₂'.tc.trie (mkTriePath n₂ (ps₂.map (fun p => (p.1, p.2.id)))) with
        | some t₂ =>
          have hd₂ := trieHit_desc hwf₂ hsh₂ hf₂
          have e₂ := readStructType_shape_hit g hsh₂ hf₂
          constructor
          · rw [e₁, e₂]
            simp
          · intro a₁ u₁ a₂ u₂ h₁ h₂
            rw [e₁] at h₁
            rw [e₂] at h₂
            injection h₁ with h₁
            injection h₁ with h₁a h₁s
            injection h₂ with h₂
            injection h₂ with h₂a h₂s
            rw [← h₁a, ← h₂a, ← h₁s, ← h₂s]
            refine ⟨?_, hpos'⟩
            show t₁.desc = t₂.desc
            rw [hd₁, hd₂, show n₁ = n₂ from hn,
              show ps₁.map (fun p => (p.1, p.2.desc)) = ps₂.map (fun p => (p.1, p.2.desc))
                from hps]
        | none =>
          have e₂' := readStructType_shape_miss g hsh₂ hf₂
          have halr : Aligned s₁ { s₂' with pos := s₂.pos } := by
            refine ⟨?_, hpos, hwf₁, hwf₂'⟩
            show s₁.toks = s₂'.toks
            rw [htk₂, htoks]
          obtain ⟨shIffr, shSomer⟩ := hSh s₁ _ halr
          cases hshr : readStructShape g { s₂' with pos := s₂.pos } with
          | none =>
            have hx := shIffr.mpr hshr
            rw [hsh₁] at hx
            exact absurd hx (by simp)
          | some pr =>
            obtain ⟨⟨nr, psr⟩, sr⟩ := pr
            obtain ⟨⟨hnr, hpsr⟩, hposr⟩ := shSomer _ _ _ _ hsh₁ hshr
            have e₂ : readStructType (g+2) s₂ =
                some ((makeStructType nr psr sr.tc).1,
                  { sr with tc := (makeStructType nr psr sr.tc).2 }) := by
              rw [e₂', readStructTypeFull_of_shape g hshr]
            constructor
            · rw [e₁, e₂]
              simp
            · intro a₁ u₁ a₂ u₂ h₁ h₂
              rw [e₁] at h₁
              rw [e₂] at h₂
              injection h₁ with h₁
              injection h₁ with h₁a h₁s
              injection h₂ with h₂
              injection h₂ with h₂a h₂s
              rw [← h₁a, ← h₂a, ← h₁s, ← h₂s]
              constructor
              · show t₁.desc = (makeStructType nr psr sr.tc).1.desc
                rw [hd₁, makeStructType_fst_desc, ← show n₁ = nr from hnr,
                  show ps₁.map (fun p => (p.1, p.2.desc)) = psr.map (fun p => (p.1, p.2.desc))
                    from hpsr]
              · show s₁'.pos = ({ sr with tc := (makeStructType nr psr sr.tc).2 }).pos
                exact hposr
      | none =>
        have e₁' := readStructType_shape_miss g hsh₁ hf₁
        cases hf₂ : trieFind s₂'.tc.trie (mkTriePath n₂ (ps₂.map (fun p => (p.1, p.2.id)))) with
        | some t₂ =>
          have hd₂ := trieHit_desc hwf₂ hsh₂ hf₂
          have e₂ := readStructType_shape_hit g hsh₂ hf₂
          have halr : Aligned { s₁' with pos := s₁.pos } s₂ := by
            refine ⟨?_, hpos, hwf₁', hwf₂⟩
            show s₁'.toks = s₂.toks
            rw [htk₁, htoks]
          obtain ⟨shIffr, shSomer⟩ := hSh _ s₂ halr
          cases hshr : readStructShape g { s₁' with pos := s₁.pos } with
          | none =>
            have hx := shIffr.mp hshr
            rw [hsh₂] at hx
            exact absurd hx (by simp)
          | some pr =>
            obtain ⟨⟨nr, psr⟩, sr⟩ := pr
            obtain ⟨⟨hnr, hpsr⟩, hposr⟩ := shSomer _ _ _ _ hshr hsh₂
            have e₁ : readStructType (g+2) s₁ =
                some ((makeStructType nr psr sr.tc).1,
                  { sr with tc := (makeStructType nr psr sr.tc).2 }) := by
              rw [e₁', readStructTypeFull_of_shape g hshr]
            constructor
            · rw [e₁, e₂]
              simp
            · intro a₁ u₁ a₂ u₂ h₁ h₂
              rw [e₁] at h₁
              rw [e₂] at h₂
              injection h₁ with h₁
              injection h₁ with h₁a h₁s
              injection h₂ with h₂
              injection h₂ with h₂a h₂s
              rw [← h₁a, ← h₂a, ← h₁s, ← h₂s]
              constructor
              · show (makeStructType nr psr sr.tc).1.desc = t₂.desc
                rw [hd₂, makeStructType_fst_desc, show nr = n₂ from hnr,
                  ← show psr.map (fun p => (p.1, p.2.desc)) = ps₂.map (fun p => (p.1, p.2.desc))
                    from hpsr]
              · exact hposr
        | none =>
          have e₁' := readStructType_shape_miss g hsh₁ hf₁
          have e₂' := readStructType_shape_miss g hsh₂ hf₂
          have halr1 : Aligned s₁ { s₁' with pos := s₁.pos } := by
            refine ⟨?_, rfl, hwf₁, hwf₁'⟩
            show s₁.toks = s₁'.toks
            rw [htk₁]
          obtain ⟨shIff1, shSome1⟩ := hSh s₁ _ halr1
          cases hshr₁ : readStructShape g { s₁' with pos := s₁.pos } with
          | none =>
            have hx := shIff1.mpr hshr₁
            rw [hsh₁] at hx
            exact absurd hx (by simp)
          | some pr₁ =>
            obtain ⟨⟨nr₁, psr₁⟩, sr₁⟩ := pr₁
            obtain ⟨⟨hnr₁, hpsr₁⟩, hposr₁⟩ := shSome1 _ _ _ _ hsh₁ hshr₁
            have halrr : Aligned { s₁' with pos := s₁.pos } { s₂' with pos := s₂.pos } := by
              refine ⟨?_, hpos, hwf₁', hwf₂'⟩
              show s₁'.toks = s₂'.toks
              rw [htk₁, htk₂, htoks]
            obtain ⟨shIffr, shSomer⟩ := hSh _ _ halrr
            cases hshr₂ : readStructShape g { s₂' with pos := s₂.pos } with
            | none =>
              have hx := shIffr.mpr hshr₂
              rw [hshr₁] at hx
              exact absurd hx (by simp)
            | some pr₂ =>
              obtain ⟨⟨nr₂, psr₂⟩, sr₂⟩ := pr₂
              obtain ⟨⟨hnrr, hpsrr⟩, hposrr⟩ := shSomer _ _ _ _ hshr₁ hshr₂
              have e₁ : readStructType (g+2) s₁ =
                  some ((makeStructType nr₁ psr₁ sr₁.tc).1,
                    { sr₁ with tc := (makeStructType nr₁ psr₁ sr₁.tc).2 }) := by
                rw [e₁', readStructTypeFull_of_shape g hshr₁]
              have e₂ : readStructType (g+2) s₂ =
                  some ((makeStructType nr₂ psr₂ sr₂.tc).1,
                    { sr₂ with tc := (makeStructType nr₂ psr₂ sr₂.tc).2 }) := by
                rw [e₂', readStructTypeFull_of_shape g hshr₂]
              constructor
              · rw [e₁, e₂]
                simp
              · intro a₁ u₁ a₂ u₂ h₁ h₂
                rw [e₁] at h₁
                rw [e₂] at h₂
                injection h₁ with h₁
                injection h₁ with h₁a h₁s
                injection h₂ with h₂
                injection h₂ with h₂a h₂s
                rw [← h₁a, ← h₂a, ← h₁s, ← h₂s]
                constructor
                · show (makeStructType nr₁ psr₁ sr₁.tc).1.desc =
                    (makeStructType nr₂ psr₂ sr₂.tc).1.desc
                  rw [makeStructType_fst_desc, makeStructType_fst_desc,
                    show nr₁ = nr₂ from hnrr,
                    show psr₁.map (fun p => (p.1, p.2.desc)) =
                      psr₂.map (fun p => (p.1, p.2.desc)) from hpsrr]
                · exact hposrr

theorem readStructShape_agree {f : Nat}
    (hFP : ∀ c, AgreeR (readFieldPairs f c) (readFieldPairs f c) pairsR) :
    AgreeR (readStructShape f) (readStructShape f)
      (fun a b => a.1 = b.1 ∧ pairsR a.2 b.2) := by
  unfold readStructShape
  apply AgreeR_bind AgreeR_readString Pres_readString Pres_readString
  intro n₁ n₂ hn
  subst hn
  apply AgreeR_bind AgreeR_readUint32 Pres_readUint32 Pres_readUint32
  intro c₁ c₂ hc
  subst hc
  apply AgreeR_bind (hFP c₁) ((presAll f).2.1 c₁) ((presAll f).2.1 c₁)
  intro ps₁ ps₂ hps
  exact AgreeR_pure ⟨rfl, hps⟩

theorem agreeAll : ∀ f : Nat,
    AgreeR (readType f) (readType f) descR ∧
    (∀ c, AgreeR (readFieldPairs f c) (readFieldPairs f c) pairsR) ∧
    AgreeR (readStructTypeFull f) (readStructTypeFull f) descR ∧
    AgreeR (readStructType f) (readStructType f) descR ∧
    AgreeR (readUnionType f) (readUnionType f) descR ∧
    AgreeR (readValue f) (readValue f) Eq ∧
    AgreeR (readValueSequence f) (readValueSequence f) Eq ∧
    AgreeR (readMapLeafSequence f) (readMapLeafSequence f) Eq ∧
    AgreeR (readMetaTuple f) (readMetaTuple f) Eq ∧
    AgreeR (readMetaSequence f) (readMetaSequence f) Eq ∧
    (∀ t₁ t₂, descR t₁ t₂ → AgreeR (readStruct f t₁) (readStruct f t₂) Eq) := by
  intro f
  induction f using Nat.strong_induction_on with
  | _ f ih =>
    cases f with
    | zero =>
      simp only [readType, readFieldPairs, readStructTypeFull, readStructType, readUnionType,
        readValue, readValueSequence, readMapLeafSequence, readMetaTuple, readMetaSequence,
        readStruct]
      exact ⟨AgreeR_failM, fun _ => AgreeR_failM, AgreeR_failM, AgreeR_failM, AgreeR_failM,
        AgreeR_failM, AgreeR_failM, AgreeR_failM, AgreeR_failM, AgreeR_failM,
        fun _ _ _ => AgreeR_failM⟩
    | succ f =>
      have ihf := ih f (Nat.lt_succ_self f)
      obtain ⟨aT, aFP, aF, aS, aU, aV, aVS, aML, aMT, aMS, aSt⟩ := ihf
      obtain ⟨pT, pFP, pC, pF, pS, pU, pV, pVS, pML, pMT, pMS, pSt⟩ := presAll f
      have hbodyFP : AgreeR
          ((do
            let fn ← readString
            let ft ← readType f
            pure (fn, ft)) : DecM (String × Typ))
          (do
            let fn ← readString
            let ft ← readType f
            pure (fn, ft))
          (fun p q => p.1 = q.1 ∧ p.2.desc = q.2.desc) := by
        apply AgreeR_bind AgreeR_readString Pres_readString Pres_readString
        intro n₁ n₂ hn
        subst hn
        apply AgreeR_bind aT pT pT
        intro u₁ u₂ hu
        exact AgreeR_pure ⟨rfl, show u₁.desc = u₂.desc from hu⟩
      have hpbodyFP : Pres ((do
          let fn ← readString
          let ft ← readType f
          pure (fn, ft)) : DecM (String × Typ)) :=
        Pres_bind Pres_readString (fun _ => Pres_bind pT (fun _ => Pres_pure _))
      refine ⟨?_, ?_, ?_, ?_, ?_, ?_, ?_, ?_, ?_, ?_, ?_⟩
      · -- readType
        simp only [readType]
        apply AgreeR_bind AgreeR_readKind Pres_readKind Pres_readKind
        intro k₁ k₂ hk
        subst hk
        cases k₁
        case BoolKind => exact AgreeR_pure rfl
        case NumberKind => exact AgreeR_pure rfl
        case StringKind => exact AgreeR_pure rfl
        case BlobKind => exact AgreeR_pure rfl
        case ValueKind => exact AgreeR_pure rfl
        case TypeKind => exact AgreeR_pure rfl
        case ListKind =>
          apply AgreeR_bind aT pT pT
          intro e₁ e₂ he
          apply AgreeR_liftTC
          intro tc₁ tc₂
          show (getCompoundType NomsKind.ListKind [e₁] tc₁).1.desc =
            (getCompoundType NomsKind.ListKind [e₂] tc₂).1.desc
          rw [getCompoundType_fst_desc, getCompoundType_fst_desc]
          simp [show e₁.desc = e₂.desc from he]
        case MapKind =>
          apply AgreeR_bind aT pT pT
          intro kt₁ kt₂ hkt
          apply AgreeR_bind aT pT pT
          intro vt₁ vt₂ hvt
          apply AgreeR_liftTC
          intro tc₁ tc₂
          show (getCompoundType NomsKind.MapKind [kt₁, vt₁] tc₁).1.desc =
            (getCompoundType NomsKind.MapKind [kt₂, vt₂] tc₂).1.desc
          rw [getCompoundType_fst_desc, getCompoundType_fst_desc]
          simp [show kt₁.desc = kt₂.desc from hkt, show vt₁.desc = vt₂.desc from hvt]
        case RefKind =>
          apply AgreeR_bind aT pT pT
          intro e₁ e₂ he
          apply AgreeR_liftTC
          intro tc₁ tc₂
          show (getCompoundType NomsKind.RefKind [e₁] tc₁).1.desc =
            (getCompoundType NomsKind.RefKind [e₂] tc₂).1.desc
          rw [getCompoundType_fst_desc, getCompoundType_fst_desc]
          simp [show e₁.desc = e₂.desc from he]
        case SetKind =>
          apply AgreeR_bind aT pT pT
          intro e₁ e₂ he
          apply AgreeR_liftTC
          intro tc₁ tc₂
          show (getCompoundType NomsKind.SetKind [e₁] tc₁).1.desc =
            (getCompoundType NomsKind.SetKind [e₂] tc₂).1.desc
          rw [getCompoundType_fst_desc, getCompoundType_fst_desc]
          simp [show e₁.desc = e₂.desc from he]
        case StructKind => exact aS
        case UnionKind => exact aU
        case CycleKind =>
          apply AgreeR_bind AgreeR_readUint32 Pres_readUint32 Pres_readUint32
          intro l₁ l₂ hl
          subst hl
          apply AgreeR_liftTC
          intro tc₁ tc₂
          show (getCycleType l₁ tc₁).1.desc = (getCycleType l₁ tc₂).1.desc
          rw [getCycleType_fst_desc, getCycleType_fst_desc]
      · -- readFieldPairs
        intro c
        simp only [readFieldPairs]
        exact AgreeR_mono (AgreeR_readN hbodyFP hpbodyFP hpbodyFP c)
          (fun a b h => forall₂_pairs h)
      · -- readStructTypeFull
        simp only [readStructTypeFull]
        apply AgreeR_bind AgreeR_readString Pres_readString Pres_readString
        intro n₁ n₂ hn
        subst hn
        apply AgreeR_bind AgreeR_readUint32 Pres_readUint32 Pres_readUint32
        intro c₁ c₂ hc
        subst hc
        apply AgreeR_bind (aFP c₁) (pFP c₁) (pFP c₁)
        intro ps₁ ps₂ hps
        apply AgreeR_liftTC
        intro tc₁ tc₂
        show (makeStructType n₁ ps₁ tc₁).1.desc = (makeStructType n₁ ps₂ tc₂).1.desc
        rw [makeStructType_fst_desc, makeStructType_fst_desc,
          show ps₁.map (fun p => (p.1, p.2.desc)) = ps₂.map (fun p => (p.1, p.2.desc)) from hps]
      · -- readStructType
        cases f with
        | zero =>
          have hz : ∀ s, readStructType 1 s = none := fun s => rfl
          intro s₁ s₂ hal
          refine ⟨by rw [hz, hz], fun a₁ u₁ a₂ u₂ h₁ h₂ => ?_⟩
          rw [hz] at h₁
          exact Option.noConfusion h₁
        | succ g =>
          exact readStructType_agree_aux g
            (readStructShape_agree (ih g (by omega)).2.1)
      · -- readUnionType
        simp only [readUnionType]
        apply AgreeR_bind AgreeR_readUint32 Pres_readUint32 Pres_readUint32
        intro l₁ l₂ hl
        subst hl
        apply AgreeR_bind (AgreeR_readN aT pT pT l₁) (Pres_readN pT l₁) (Pres_readN pT l₁)
        intro ts₁ ts₂ hts
        apply AgreeR_liftTC
        intro tc₁ tc₂
        show (getCompoundType NomsKind.UnionKind ts₁ tc₁).1.desc =
          (getCompoundType NomsKind.UnionKind ts₂ tc₂).1.desc
        rw [getCompoundType_fst_desc, getCompoundType_fst_desc, forall₂_desc_map hts]
      · -- readValue
        simp only [readValue]
        apply AgreeR_bind aT pT pT
        intro t₁ t₂ ht
        have ht' : t₁.desc = t₂.desc := ht
        rw [ht']
        generalize kindOfDesc t₂.desc = k
        cases k
        case BoolKind =>
          apply AgreeR_bind AgreeR_readBool Pres_readBool Pres_readBool
          intro b₁ b₂ hb
          subst hb
          exact AgreeR_pure rfl
        case NumberKind =>
          apply AgreeR_bind AgreeR_readNumber Pres_readNumber Pres_readNumber
          intro q₁ q₂ hq
          subst hq
          exact AgreeR_pure rfl
        case StringKind =>
          apply AgreeR_bind AgreeR_readString Pres_readString Pres_readString
          intro x₁ x₂ hx
          subst hx
          exact AgreeR_pure rfl
        case BlobKind =>
          apply AgreeR_bind AgreeR_readBool Pres_readBool Pres_readBool
          intro b₁ b₂ hb
          subst hb
          cases b₁
          · apply AgreeR_bind AgreeR_readBytes Pres_readBytes Pres_readBytes
            intro bs₁ bs₂ hbs
            subst hbs
            exact AgreeR_pure rfl
          · apply AgreeR_bind aMS pMS pMS
            intro d₁ d₂ hd
            subst hd
            exact AgreeR_pure rfl
        case ValueKind => exact AgreeR_failM
        case ListKind =>
          apply AgreeR_bind AgreeR_readBool Pres_readBool Pres_readBool
          intro b₁ b₂ hb
          subst hb
          cases b₁
          · apply AgreeR_bind aVS pVS pVS
            intro d₁ d₂ hd
            subst hd
            exact AgreeR_pure rfl
          · apply AgreeR_bind aMS pMS pMS
            intro d₁ d₂ hd
            subst hd
            exact AgreeR_pure rfl
        case MapKind =>
          apply AgreeR_bind AgreeR_readBool Pres_readBool Pres_readBool
          intro b₁ b₂ hb
          subst hb
          cases b₁
          · apply AgreeR_bind aML pML pML
            intro d₁ d₂ hd
            subst hd
            exact AgreeR_pure rfl
          · apply AgreeR_bind aMS pMS pMS
            intro d₁ d₂ hd
            subst hd
            exact AgreeR_pure rfl
        case RefKind => exact AgreeR_readRef ht
        case SetKind =>
          apply AgreeR_bind AgreeR_readBool Pres_readBool Pres_readBool
          intro b₁ b₂ hb
          subst hb
          cases b₁
          · apply AgreeR_bind aVS pVS pVS
            intro d₁ d₂ hd
            subst hd
            exact AgreeR_pure rfl
          · apply AgreeR_bind aMS pMS pMS
            intro d₁ d₂ hd
            subst hd
            exact AgreeR_pure rfl
        case StructKind => exact aSt t₁ t₂ ht
        case TypeKind =>
          apply AgreeR_bind aT pT pT
          intro u₁ u₂ hu
          exact AgreeR_pure (by rw [show u₁.desc = u₂.desc from hu])
        case CycleKind => exact AgreeR_failM
        case UnionKind => exact AgreeR_failM
      · -- readValueSequence
        simp only [readValueSequence]
        apply AgreeR_bind AgreeR_readUint32 Pres_readUint32 Pres_readUint32
        intro c₁ c₂ hc
        subst hc
        exact AgreeR_mono (AgreeR_readN aV pV pV c₁) (fun a b h => forall₂_eq h)
      · -- readMapLeafSequence
        simp only [readMapLeafSequence]
        apply AgreeR_bind AgreeR_readUint32 Pres_readUint32 Pres_readUint32
        intro c₁ c₂ hc
        subst hc
        have hb : AgreeR
            ((do
              let k ← readValue f
              let v ← readValue f
              pure (k, v)) : DecM (Value × Value))
            (do
              let k ← readValue f
              let v ← readValue f
              pure (k, v)) Eq := by
          apply AgreeR_bind aV pV pV
          intro k₁ k₂ hk
          subst hk
          apply AgreeR_bind aV pV pV
          intro v₁ v₂ hv
          subst hv
          exact AgreeR_pure rfl
        have hpb : Pres ((do
            let k ← readValue f
            let v ← readValue f
            pure (k, v)) : DecM (Value × Value)) :=
          Pres_bind pV (fun _ => Pres_bind pV (fun _ => Pres_pure _))
        exact AgreeR_mono (AgreeR_readN hb hpb hpb c₁) (fun a b h => forall₂_eq h)
      · -- readMetaTuple
        simp only [readMetaTuple]
        apply AgreeR_bind aV pV pV
        intro v₁ v₂ hv
        subst hv
        cases v₁
        case refV r =>
          apply AgreeR_bind aV pV pV
          intro w₁ w₂ hw
          subst hw
          apply AgreeR_bind AgreeR_readUint64 Pres_readUint64 Pres_readUint64
          intro n₁ n₂ hn
          subst hn
          exact AgreeR_pure rfl
        all_goals exact AgreeR_failM
      · -- readMetaSequence
        simp only [readMetaSequence]
        apply AgreeR_bind AgreeR_readUint32 Pres_readUint32 Pres_readUint32
        intro c₁ c₂ hc
        subst hc
        exact AgreeR_mono (AgreeR_readN aMT pMT pMT c₁) (fun a b h => forall₂_eq h)
      · -- readStruct
        intro t₁ t₂ ht
        simp only [readStruct]
        have ht' : t₁.desc = t₂.desc := ht
        rw [ht']
        generalize t₂.desc = d
        cases d
        case StructDesc name fields =>
          apply AgreeR_bind (AgreeR_readN aV pV pV fields.length)
            (Pres_readN pV _) (Pres_readN pV _)
          intro vs₁ vs₂ hvs
          have hveq := forall₂_eq hvs
          subst hveq
          exact AgreeR_pure rfl
        all_goals exact AgreeR_failM

theorem readN_length {α : Type} {m : DecM α} : ∀ {n : Nat} {s : DecState} {as : List α}
    {s' : DecState}, readN m n s = some (as, s') → as.length = n := by
  intro n
  induction n with
  | zero =>
    intro s as s' h
    simp only [readN, pure_run] at h
    injection h with h
    injection h with h1 h2
    rw [← h1]
    rfl
  | succ n ih =>
    intro s as s' h
    simp only [readN] at h
    rw [bind_eq_some] at h
    obtain ⟨a, s₁, ha, h⟩ := h
    rw [bind_eq_some] at h
    obtain ⟨as', s₂, has, hp⟩ := h
    rw [pure_run] at hp
    injection hp with hp
    injection hp with hp1 hp2
    rw [← hp1, List.length_cons, ih has]

theorem readN_ReadsNValues (f : Nat) : ∀ (n : Nat) (s : DecState) (vs : List Value)
    (s' : DecState), readN (readValue f) n s = some (vs, s') → ReadsNValues f n s vs s' := by
  intro n
  induction n with
  | zero =>
    intro s vs s' h
    simp only [readN, pure_run] at h
    injection h with h
    injection h with h1 h2
    rw [← h1, ← h2]
    exact ReadsNValues.nil s
  | succ n ih =>
    intro s vs s' h
    simp only [readN] at h
    rw [bind_eq_some] at h
    obtain ⟨v, s₁, hv, h⟩ := h
    rw [bind_eq_some] at h
    obtain ⟨vs', s₂, hvs, hp⟩ := h
    rw [pure_run] at hp
    injection hp with hp
    injection hp with hp1 hp2
    rw [← hp1, ← hp2]
    exact ReadsNValues.cons hv (ih s₁ vs' s₂ hvs)

theorem readMetaTuple_char (f : Nat) (s s' : DecState) (tup : MetaTuple)
    (h : readMetaTuple (f+1) s = some (tup, s')) :
    ∃ r s₁ v s₂ nl, readValue f s = some (Value.refV r, s₁) ∧
      readValue f s₁ = some (v, s₂) ∧
      readUint64 s₂ = some (nl, s') ∧
      tup = newMetaTuple r
        (match v with
          | Value.refV r₂ => orderedKeyFromHash r₂.target
          | _ => newOrderedKey v) nl none := by
  simp only [readMetaTuple] at h
  rw [bind_eq_some] at h
  obtain ⟨v₀, s₁, h₀, h⟩ := h
  split at h
  · next r =>
    rw [bind_eq_some] at h
    obtain ⟨v, s₂, hv, h⟩ := h
    rw [bind_eq_some] at h
    obtain ⟨nl, s₃, hnl, hp⟩ := h
    rw [pure_run] at hp
    injection hp with hp
    injection hp with hp1 hp2
    refine ⟨r, s₁, v, s₂, nl, h₀, hv, ?_, hp1.symm⟩
    rw [hp2] at hnl
    exact hnl
  · exact Option.noConfusion h

theorem readMetaTuple_child (f : Nat) (s s' : DecState) (tup : MetaTuple)
    (h : readMetaTuple f s = some (tup, s')) : tup.child = none := by
  cases f with
  | zero => exact Option.noConfusion h
  | succ f =>
    obtain ⟨r, s₁, v, s₂, nl, h₀, hv, hnl, htup⟩ := readMetaTuple_char f s s' tup h
    rw [htup]
    rfl

theorem readMetaTuples_children (f : Nat) : ∀ (c : Nat) (s : DecState)
    (data : List MetaTuple) (s' : DecState),
    readN (readMetaTuple f) c s = some (data, s') → ∀ tup ∈ data, tup.child = none := by
  intro c
  induction c with
  | zero =>
    intro s data s' h
    simp only [readN, pure_run] at h
    injection h with h
    injection h with h1 h2
    intro tup htup
    rw [← h1] at htup
    simp at htup
  | succ c ih =>
    intro s data s' h
    simp only [readN] at h
    rw [bind_eq_some] at h
    obtain ⟨tup₀, s₁, htup₀, h⟩ := h
    rw [bind_eq_some] at h
    obtain ⟨data', s₂, hdata, hp⟩ := h
    rw [pure_run] at hp
    injection hp with hp
    injection hp with hp1 hp2
    intro tup htup
    rw [← hp1] at htup
    rcases List.mem_cons.mp htup with he | hmem
    · rw [he]
      exact readMetaTuple_child f s s₁ tup₀ htup₀
    · exact ih s₁ data' s₂ hdata tup hmem

theorem hexBytes_hex : (cs : List Char) → (bs : List Nat) → hexBytes cs = some bs →
    ∀ c ∈ cs, (hexVal c).isSome = true
  | [], _, _ => by
    intro c hc
    simp at hc
  | [_], _, h => by
    rw [hexBytes] at h
    exact Option.noConfusion h
  | c₁ :: c₂ :: rest, bs, h => by
    rw [hexBytes] at h
    intro c hc
    cases h₁ : hexVal c₁ with
    | none =>
      rw [h₁] at h
      exact Option.noConfusion h
    | some hv₁ =>
      rw [h₁] at h
      cases h₂ : hexVal c₂ with
      | none =>
        rw [h₂] at h
        exact Option.noConfusion h
      | some hv₂ =>
        rw [h₂] at h
        cases h₃ : hexBytes rest with
        | none =>
          rw [h₃] at h
          exact Option.noConfusion h
        | some bs' =>
          rcases List.mem_cons.mp hc with he | hc'
          · rw [he, h₁]
            rfl
          · rcases List.mem_cons.mp hc' with he | hc''
            · rw [he, h₂]
              rfl
            · exact hexBytes_hex rest bs' h₃ c hc''

/-- C1: two type encodings decoded against one shared TypeCache that denote
structurally equal compound, union, or struct types come back as one and the
same interned Type instance (equal identity and descriptor), so identity
comparison coincides with structural equality for interned types. -/
theorem readType_canonical (f₁ f₂ : Nat) (s₁ s₂ : DecState) (t₁ t₂ : Typ)
    (s₁' s₂' : DecState)
    (hwf : WFCache s₁.tc)
    (h₁ : readType f₁ s₁ = some (t₁, s₁'))
    (hshare : s₂.tc = s₁'.tc)
    (h₂ : readType f₂ s₂ = some (t₂, s₂'))
    (heq : t₁.desc = t₂.desc)
    (hkind : isCachedKind (kindOfDesc t₁.desc) = true) :
    t₁ = t₂ := by
  have hwf₁ := ((presAll f₁).1 s₁ t₁ s₁' h₁).2.2.2 hwf
  have hreg₁ := (regAll f₁).1 s₁ t₁ s₁' hwf h₁
  have hwf₂ : WFCache s₂.tc := by rw [hshare]; exact hwf₁
  have hreg₂ := (regAll f₂).1 s₂ t₂ s₂' hwf₂ h₂
  have hmono := ((presAll f₂).1 s₂ t₂ s₂' h₂).2.2.1
  have hreg₁' : lookupDesc s₂'.tc.table t₁.desc = some t₁.id := by
    apply hmono
    rw [hshare]
    exact hreg₁
  rw [heq] at hreg₁'
  have hid : t₁.id = t₂.id := by
    have hh := hreg₁'.symm.trans hreg₂
    injection hh
  obtain ⟨i₁, d₁⟩ := t₁
  obtain ⟨i₂, d₂⟩ := t₂
  rw [show ({ id := i₁, desc := d₁ } : Typ).id = i₁ from rfl] at hid
  rw [show ({ id := i₂, desc := d₂ } : Typ).id = i₂ from rfl] at hid
  rw [show ({ id := i₁, desc := d₁ } : Typ).desc = d₁ from rfl] at heq
  rw [show ({ id := i₂, desc := d₂ } : Typ).desc = d₂ from rfl] at heq
  rw [hid, heq]

/-- C2: a decoded leading Type whose kind is union, cycle, or the generic
value kind makes readValue abort the whole in-flight decode (no Value, not
even a partial one, is produced). -/
theorem readValue_rejects_abstract_kinds (f : Nat) (s s' : DecState) (t : Typ)
    (h : readType f s = some (t, s'))
    (hk : kindOfDesc t.desc = NomsKind.UnionKind ∨ kindOfDesc t.desc = NomsKind.CycleKind ∨
      kindOfDesc t.desc = NomsKind.ValueKind) :
    readValue (f+1) s = none := by
  simp only [readValue]
  rw [bind_eq_none]
  right
  refine ⟨t, s', h, ?_⟩
  rcases hk with hk | hk | hk <;> rw [hk] <;> rfl

/-- C3: when the trie fast path lands on a populated node its cached type is
returned as is; when it does not, the cursor is restored to the position
saved before the fast path began and the full path runs from there — reading
struct name, field count and each field pair, and producing the canonical
struct type from the cache — with no reuse of any fast-path trie progress. -/
theorem readStructType_fallback (f : Nat) (s s' : DecState) (r : Option Typ)
    (h : readCachedStructType f s = some (r, s')) :
    (∀ t, r = some t → readStructType (f+1) s = some (t, s')) ∧
    (r = none → readStructType (f+1) s = readStructTypeFull f { s' with pos := s.pos }) ∧
    (r = none → ∀ g, f = g + 1 → ∀ n ps s'',
      readStructShape g { s' with pos := s.pos } = some ((n, ps), s'') →
      readStructType (f+1) s =
        some ((makeStructType n ps s''.tc).1,
          { s'' with tc := (makeStructType n ps s''.tc).2 })) := by
  refine ⟨?_, ?_, ?_⟩
  · intro t hrt
    subst hrt
    rw [readStructType_run f s, h]
  · intro hrt
    subst hrt
    rw [readStructType_run f s, h]
  · intro hrt g hg n ps s'' hsh
    subst hrt
    subst hg
    rw [readStructType_run (g+1) s, h]
    exact readStructTypeFull_of_shape g hsh

/-- C4: whenever the struct trie fast path succeeds, decoding the same bytes
from the same position via the full path against a cleared (fresh) cache
succeeds as well and yields a structurally equal struct type, ending at the
same cursor position: the two decode paths are equivalent on struct-type
encodings. -/
theorem fastPath_full_equiv (g : Nat) (s s' : DecState) (t : Typ)
    (hwf : WFCache s.tc)
    (hhit : readCachedStructType (g+1) s = some (some t, s')) :
    ∃ t' s'', readStructTypeFull (g+1)
        { toks := s.toks, pos := s.pos, tc := initCache, fetches := s.fetches } =
          some (t', s'') ∧
      t'.desc = t.desc ∧ s''.pos = s'.pos := by
  rw [readCachedStructType_shape g s] at hhit
  cases hsh : readStructShape g s with
  | none =>
    rw [hsh] at hhit
    exact Option.noConfusion hhit
  | some p =>
    obtain ⟨⟨n, ps⟩, s₀⟩ := p
    rw [hsh] at hhit
    have hh : some ((trieFind s₀.tc.trie (mkTriePath n (ps.map (fun p => (p.1, p.2.id)))),
        s₀) : Option Typ × DecState) = some (some t, s') := hhit
    injection hh with hh
    injection hh with hfind hs₀
    subst hs₀
    have hd := trieHit_desc hwf hsh hfind
    have halr : Aligned s ⟨s.toks, s.pos, initCache, s.fetches⟩ :=
      ⟨rfl, rfl, hwf, initCache_wf⟩
    obtain ⟨shIff, shSome⟩ := readStructShape_agree (agreeAll g).2.1 s _ halr
    cases hshf : readStructShape g ⟨s.toks, s.pos, initCache, s.fetches⟩ with
    | none =>
      have hx := shIff.mpr hshf
      rw [hsh] at hx
      exact absurd hx (by simp)
    | some pf =>
      obtain ⟨⟨nf, psf⟩, sf⟩ := pf
      obtain ⟨⟨hnf, hpsf⟩, hposf⟩ := shSome _ _ _ _ hsh hshf
      refine ⟨(makeStructType nf psf sf.tc).1,
        { sf with tc := (makeStructType nf psf sf.tc).2 },
        readStructTypeFull_of_shape g hshf, ?_, ?_⟩
      · rw [makeStructType_fst_desc, hd, show n = nf from hnf,
          show ps.map (fun p => (p.1, p.2.desc)) = psf.map (fun p => (p.1, p.2.desc))
            from hpsf]
      · exact hposf.symm

/-- C5: a successful meta-sequence decode materializes only the per-tuple
summaries — every tuple's lazily fetched child component is absent — and the
external chunk-fetch collaborator is never invoked during the decode. -/
theorem readMetaSequence_no_fetch (f : Nat) (s s' : DecState) (data : List MetaTuple)
    (h : readMetaSequence f s = some (data, s')) :
    (∀ tup ∈ data, tup.child = none) ∧ s'.fetches = s.fetches := by
  obtain ⟨pT, pFP, pC, pF, pS, pU, pV, pVS, pML, pMT, pMS, pSt⟩ := presAll f
  refine ⟨?_, (pMS s data s' h).2.1⟩
  cases f with
  | zero => exact Option.noConfusion h
  | succ f =>
    simp only [readMetaSequence] at h
    rw [bind_eq_some] at h
    obtain ⟨count, s₁, hc, h⟩ := h
    exact readMetaTuples_children f count s₁ data s' h

/-- C6: each decoded meta tuple derives its ordered key from the second
decoded value — from the ref's target digest when that value is itself a Ref,
and from the value itself (its natural order) otherwise. -/
theorem readMetaTuple_key (f : Nat) (s s' : DecState) (tup : MetaTuple)
    (h : readMetaTuple (f+1) s = some (tup, s')) :
    ∃ r s₁ v s₂, readValue f s = some (Value.refV r, s₁) ∧
      readValue f s₁ = some (v, s₂) ∧
      ((∃ r₂, v = Value.refV r₂ ∧ tup.key = orderedKeyFromHash r₂.target) ∨
       ((∀ r₂, v ≠ Value.refV r₂) ∧ tup.key = newOrderedKey v)) := by
  obtain ⟨r, s₁, v, s₂, nl, h₀, hv, hnl, htup⟩ := readMetaTuple_char f s s' tup h
  refine ⟨r, s₁, v, s₂, h₀, hv, ?_⟩
  cases v
  case refV r₂ =>
    left
    exact ⟨r₂, rfl, by rw [htup]; rfl⟩
  all_goals
    right
    exact ⟨fun r₂ hr₂ => Value.noConfusion hr₂, by rw [htup]; rfl⟩

/-- C7: decoding a struct value against an already-decoded struct type with N
declared fields performs exactly N full value decodes in declared order
(no field names or count are read from the wire for the value), and the
resulting struct value carries an unset (none) content digest. -/
theorem readStruct_positional (f : Nat) (t : Typ) (s s' : DecState) (v : Value)
    (h : readStruct (f+1) t s = some (v, s')) :
    ∃ name fields vs, t.desc = TypeDesc.StructDesc name fields ∧
      vs.length = fields.length ∧
      ReadsNValues f fields.length s vs s' ∧
      v = Value.structV vs t.desc none := by
  simp only [readStruct] at h
  revert h
  cases hd : t.desc with
  | StructDesc name fields =>
    intro h
    have h' : (readN (readValue f) fields.length >>= fun values =>
        (pure (Value.structV values (TypeDesc.StructDesc name fields) none) : DecM Value)) s =
        some (v, s') := h
    rw [bind_eq_some] at h'
    obtain ⟨vs, s₁, hvs, hp⟩ := h'
    rw [pure_run] at hp
    injection hp with hp
    injection hp with hp1 hp2
    refine ⟨name, fields, vs, rfl, readN_length hvs, ?_, hp1.symm⟩
    rw [hp2] at hvs
    exact readN_ReadsNValues f fields.length s vs s' hvs
  | PrimitiveDesc k =>
    intro h
    exact Option.noConfusion h
  | CompoundDesc k elems =>
    intro h
    exact Option.noConfusion h
  | CycleDesc level =>
    intro h
    exact Option.noConfusion h

/-- C8: digest-text parsing accepts only the exact grammar "sha1-" followed
by 40 hex characters — a successful parse forces that shape, hence any wrong
algorithm tag, wrong digit count, or non-hex character fails — and parsing
"sha1-" followed by 40 zero characters succeeds. -/
theorem parseDigest_spec :
    (∀ s ds, parseDigest s = some ds →
      ∃ rest, s.data = 's' :: 'h' :: 'a' :: '1' :: '-' :: rest ∧ rest.length = 40 ∧
        ∀ c ∈ rest, (hexVal c).isSome = true) ∧
    parseDigest (String.mk ('s' :: 'h' :: 'a' :: '1' :: '-' :: List.replicate 40 '0')) =
      some (List.replicate 20 0) := by
  constructor
  · intro s ds h
    unfold parseDigest at h
    split at h
    · next rest heq =>
      split at h
      · next hlen => exact ⟨rest, heq, hlen, hexBytes_hex rest ds h⟩
      · exact Option.noConfusion h
    · exact Option.noConfusion h
  · decide

/-- C9: value decoding is deterministic across caches — two runs of readValue
over the same token stream and position, against any two well-formed caches
(a fresh cache, or the same cache as warmed by an earlier run), produce equal
values and leave the cursor at the same position. -/
theorem readValue_deterministic (f : Nat) (toks : List Token) (pos : Nat)
    (tc₁ tc₂ : TypeCache) (fe₁ fe₂ : Nat) (v₁ v₂ : Value) (s₁' s₂' : DecState)
    (hwf₁ : WFCache tc₁) (hwf₂ : WFCache tc₂)
    (h₁ : readValue f ⟨toks, pos, tc₁, fe₁⟩ = some (v₁, s₁'))
    (h₂ : readValue f ⟨toks, pos, tc₂, fe₂⟩ = some (v₂, s₂')) :
    v₁ = v₂ ∧ s₁'.pos = s₂'.pos := by
  obtain ⟨aT, aFP, aF, aS, aU, aV, aVS, aML, aMT, aMS, aSt⟩ := agreeAll f
  exact (aV ⟨toks, pos, tc₁, fe₁⟩ ⟨toks, pos, tc₂, fe₂⟩ ⟨rfl, rfl, hwf₁, hwf₂⟩).2
    v₁ s₁' v₂ s₂' h₁ h₂

/-- C10: the first value of every meta tuple must decode to a Ref — if it
decodes to anything else the whole tuple decode aborts with no result, and
every successfully decoded tuple records that Ref as its child pointer. -/
theorem readMetaTuple_requires_ref :
    (∀ (f : Nat) (s s₁ : DecState) (v₀ : Value), readValue f s = some (v₀, s₁) →
      (∀ r, v₀ ≠ Value.refV r) → readMetaTuple (f+1) s = none) ∧
    (∀ (f : Nat) (s s' : DecState) (tup : MetaTuple),
      readMetaTuple (f+1) s = some (tup, s') →
      ∃ r s₁, readValue f s = some (Value.refV r, s₁) ∧ tup.ref = r) := by
  constructor
  · intro f s s₁ v₀ h hnr
    simp only [readMetaTuple]
    rw [bind_run, h]
    cases v₀
    case refV r => exact absurd rfl (hnr r)
    all_goals rfl
  · intro f s s' tup h
    obtain ⟨r, s₁, v, s₂, nl, h₀, hv, hnl, htup⟩ := readMetaTuple_char f s s' tup h
    exact ⟨r, s₁, h₀, by rw [htup]; rfl⟩

/-- Witness for C1: two different encodings of the same union — members in
reversed order and one member repeated — decoded against the threaded cache
come back as one and the same interned instance (the canonical member set
{Bool, Number}, interned once at identity 13). -/
theorem readType_canonical_witness :
    readType 3 ⟨[Token.uint8 12, Token.uint32 3, Token.uint8 0, Token.uint8 1,
        Token.uint8 0], 0, initCache, 0⟩ =
      some (⟨13, TypeDesc.CompoundDesc NomsKind.UnionKind
          [TypeDesc.PrimitiveDesc NomsKind.BoolKind,
           TypeDesc.PrimitiveDesc NomsKind.NumberKind]⟩,
        ⟨[Token.uint8 12, Token.uint32 3, Token.uint8 0, Token.uint8 1, Token.uint8 0], 5,
          { table := (TypeDesc.CompoundDesc NomsKind.UnionKind
              [TypeDesc.PrimitiveDesc NomsKind.BoolKind,
               TypeDesc.PrimitiveDesc NomsKind.NumberKind], 13) :: initCache.table,
            nextId := 14, trie := [] }, 0⟩) ∧
    readType 3 ⟨[Token.uint8 12, Token.uint32 2, Token.uint8 1, Token.uint8 0], 0,
        { table := (TypeDesc.CompoundDesc NomsKind.UnionKind
            [TypeDesc.PrimitiveDesc NomsKind.BoolKind,
             TypeDesc.PrimitiveDesc NomsKind.NumberKind], 13) :: initCache.table,
          nextId := 14, trie := [] }, 0⟩ =
      some (⟨13, TypeDesc.CompoundDesc NomsKind.UnionKind
          [TypeDesc.PrimitiveDesc NomsKind.BoolKind,
           TypeDesc.PrimitiveDesc NomsKind.NumberKind]⟩,
        ⟨[Token.uint8 12, Token.uint32 2, Token.uint8 1, Token.uint8 0], 4,
          { table := (TypeDesc.CompoundDesc NomsKind.UnionKind
              [TypeDesc.PrimitiveDesc NomsKind.BoolKind,
               TypeDesc.PrimitiveDesc NomsKind.NumberKind], 13) :: initCache.table,
            nextId := 14, trie := [] }, 0⟩) ∧
    (⟨13, TypeDesc.CompoundDesc NomsKind.UnionKind
        [TypeDesc.PrimitiveDesc NomsKind.BoolKind,
         TypeDesc.PrimitiveDesc NomsKind.NumberKind]⟩ : Typ) =
      ⟨13, TypeDesc.CompoundDesc NomsKind.UnionKind
        [TypeDesc.PrimitiveDesc NomsKind.BoolKind,
         TypeDesc.PrimitiveDesc NomsKind.NumberKind]⟩ :=
  ⟨rfl, rfl, readType_canonical 3 3
    ⟨[Token.uint8 12, Token.uint32 3, Token.uint8 0, Token.uint8 1, Token.uint8 0], 0,
      initCache, 0⟩
    ⟨[Token.uint8 12, Token.uint32 2, Token.uint8 1, Token.uint8 0], 0,
      { table := (TypeDesc.CompoundDesc NomsKind.UnionKind
          [TypeDesc.PrimitiveDesc NomsKind.BoolKind,
           TypeDesc.PrimitiveDesc NomsKind.NumberKind], 13) :: initCache.table,
        nextId := 14, trie := [] }, 0⟩
    ⟨13, TypeDesc.CompoundDesc NomsKind.UnionKind
      [TypeDesc.PrimitiveDesc NomsKind.BoolKind,
       TypeDesc.PrimitiveDesc NomsKind.NumberKind]⟩
    ⟨13, TypeDesc.CompoundDesc NomsKind.UnionKind
      [TypeDesc.PrimitiveDesc NomsKind.BoolKind,
       TypeDesc.PrimitiveDesc NomsKind.NumberKind]⟩
    ⟨[Token.uint8 12, Token.uint32 3, Token.uint8 0, Token.uint8 1, Token.uint8 0], 5,
      { table := (TypeDesc.CompoundDesc NomsKind.UnionKind
          [TypeDesc.PrimitiveDesc NomsKind.BoolKind,
           TypeDesc.PrimitiveDesc NomsKind.NumberKind], 13) :: initCache.table,
        nextId := 14, trie := [] }, 0⟩
    ⟨[Token.uint8 12, Token.uint32 2, Token.uint8 1, Token.uint8 0], 4,
      { table := (TypeDesc.CompoundDesc NomsKind.UnionKind
          [TypeDesc.PrimitiveDesc NomsKind.BoolKind,
           TypeDesc.PrimitiveDesc NomsKind.NumberKind], 13) :: initCache.table,
        nextId := 14, trie := [] }, 0⟩
    initCache_wf rfl rfl rfl rfl rfl⟩

/-- Witness for C2: a stream whose leading type is a cycle type makes
readValue abort. -/
theorem readValue_rejects_abstract_kinds_witness :
    readValue 3 ⟨[Token.uint8 11, Token.uint32 0], 0, initCache, 0⟩ = none :=
  readValue_rejects_abstract_kinds 2
    ⟨[Token.uint8 11, Token.uint32 0], 0, initCache, 0⟩
    ⟨[Token.uint8 11, Token.uint32 0], 2,
      { table := (TypeDesc.CycleDesc 0, 13) :: initCache.table, nextId := 14, trie := [] }, 0⟩
    ⟨13, TypeDesc.CycleDesc 0⟩ rfl (Or.inr (Or.inl rfl))

/-- Witness for C3: a trie miss on an empty cache falls back to the full path
from the saved position zero. -/
theorem readStructType_fallback_witness :
    readStructType 3 ⟨[Token.strT "S", Token.uint32 0], 0, initCache, 0⟩ =
      readStructTypeFull 2 ⟨[Token.strT "S", Token.uint32 0], 0, initCache, 0⟩ :=
  (readStructType_fallback 2
    ⟨[Token.strT "S", Token.uint32 0], 0, initCache, 0⟩
    ⟨[Token.strT "S", Token.uint32 0], 2, initCache, 0⟩
    none rfl).2.1 rfl

/-- Witness for C4: after a full decode of struct S, the fast path hits and
matches a cleared-cache full decode of the same bytes. -/
theorem fastPath_full_equiv_witness :
    ∃ t' s'', readStructTypeFull 2
        { toks := [Token.strT "S", Token.uint32 0], pos := 0, tc := initCache, fetches := 0 } =
          some (t', s'') ∧
      t'.desc = TypeDesc.StructDesc "S" [] ∧ s''.pos = 2 :=
  fastPath_full_equiv 1
    ⟨[Token.strT "S", Token.uint32 0], 0,
      { table := (TypeDesc.StructDesc "S" [], 13) :: initCache.table,
        nextId := 14,
        trie := [([TrieTok.name "S"], ⟨13, TypeDesc.StructDesc "S" []⟩)] }, 0⟩
    ⟨[Token.strT "S", Token.uint32 0], 2,
      { table := (TypeDesc.StructDesc "S" [], 13) :: initCache.table,
        nextId := 14,
        trie := [([TrieTok.name "S"], ⟨13, TypeDesc.StructDesc "S" []⟩)] }, 0⟩
    ⟨13, TypeDesc.StructDesc "S" []⟩
    (((presAll 2).2.2.2.1
      ⟨[Token.strT "S", Token.uint32 0], 0, initCache, 0⟩
      ⟨13, TypeDesc.StructDesc "S" []⟩
      ⟨[Token.strT "S", Token.uint32 0], 2,
        { table := (TypeDesc.StructDesc "S" [], 13) :: initCache.table,
          nextId := 14,
          trie := [([TrieTok.name "S"], ⟨13, TypeDesc.StructDesc "S" []⟩)] }, 0⟩
      rfl).2.2.2 initCache_wf)
    rfl

/-- Witness for C5: a one-tuple meta sequence decodes with an absent child
and an unchanged fetch count. -/
theorem readMetaSequence_no_fetch_witness :
    (∀ tup ∈ [MetaTuple.mk
        ⟨TypeDesc.CompoundDesc NomsKind.RefKind [TypeDesc.PrimitiveDesc NomsKind.BoolKind],
          5, 0⟩
        (OrderedKey.byValue (Value.bool true)) 7 none], tup.child = none) ∧
      (⟨[Token.uint32 1, Token.uint8 7, Token.uint8 0, Token.hashT 5, Token.uint64 0,
        Token.uint8 0, Token.boolT true, Token.uint64 7], 8,
        { table := (TypeDesc.CompoundDesc NomsKind.RefKind
            [TypeDesc.PrimitiveDesc NomsKind.BoolKind], 13) :: initCache.table,
          nextId := 14, trie := [] }, 0⟩ : DecState).fetches =
      (⟨[Token.uint32 1, Token.uint8 7, Token.uint8 0, Token.hashT 5, Token.uint64 0,
        Token.uint8 0, Token.boolT true, Token.uint64 7], 0, initCache, 0⟩ : DecState).fetches :=
  readMetaSequence_no_fetch 5
    ⟨[Token.uint32 1, Token.uint8 7, Token.uint8 0, Token.hashT 5, Token.uint64 0,
      Token.uint8 0, Token.boolT true, Token.uint64 7], 0, initCache, 0⟩
    ⟨[Token.uint32 1, Token.uint8 7, Token.uint8 0, Token.hashT 5, Token.uint64 0,
      Token.uint8 0, Token.boolT true, Token.uint64 7], 8,
      { table := (TypeDesc.CompoundDesc NomsKind.RefKind
          [TypeDesc.PrimitiveDesc NomsKind.BoolKind], 13) :: initCache.table,
        nextId := 14, trie := [] }, 0⟩
    [MetaTuple.mk
      ⟨TypeDesc.CompoundDesc NomsKind.RefKind [TypeDesc.PrimitiveDesc NomsKind.BoolKind], 5, 0⟩
      (OrderedKey.byValue (Value.bool true)) 7 none]
    rfl

/-- Witness for C6: a concrete meta tuple whose second value is a bool takes
its key from the value's natural order. -/
theorem readMetaTuple_key_witness :
    ∃ r s₁ v s₂, readValue 3
        ⟨[Token.uint8 7, Token.uint8 0, Token.hashT 5, Token.uint64 0, Token.uint8 0,
          Token.boolT true, Token.uint64 7], 0, initCache, 0⟩ = some (Value.refV r, s₁) ∧
      readValue 3 s₁ = some (v, s₂) ∧
      ((∃ r₂, v = Value.refV r₂ ∧
          (MetaTuple.mk
            ⟨TypeDesc.CompoundDesc NomsKind.RefKind
              [TypeDesc.PrimitiveDesc NomsKind.BoolKind], 5, 0⟩
            (OrderedKey.byValue (Value.bool true)) 7 none).key =
            orderedKeyFromHash r₂.target) ∨
       ((∀ r₂, v ≠ Value.refV r₂) ∧
          (MetaTuple.mk
            ⟨TypeDesc.CompoundDesc NomsKind.RefKind
              [TypeDesc.PrimitiveDesc NomsKind.BoolKind], 5, 0⟩
            (OrderedKey.byValue (Value.bool true)) 7 none).key = newOrderedKey v)) :=
  readMetaTuple_key 3
    ⟨[Token.uint8 7, Token.uint8 0, Token.hashT 5, Token.uint64 0, Token.uint8 0,
      Token.boolT true, Token.uint64 7], 0, initCache, 0⟩
    ⟨[Token.uint8 7, Token.uint8 0, Token.hashT 5, Token.uint64 0, Token.uint8 0,
      Token.boolT true, Token.uint64 7], 7,
      { table := (TypeDesc.CompoundDesc NomsKind.RefKind
          [TypeDesc.PrimitiveDesc NomsKind.BoolKind], 13) :: initCache.table,
        nextId := 14, trie := [] }, 0⟩
    (MetaTuple.mk
      ⟨TypeDesc.CompoundDesc NomsKind.RefKind [TypeDesc.PrimitiveDesc NomsKind.BoolKind], 5, 0⟩
      (OrderedKey.byValue (Value.bool true)) 7 none)
    rfl

/-- Witness for C7: a one-field struct value decode performs exactly one
value decode and carries an unset digest. -/
theorem readStruct_positional_witness :
    ∃ name fields vs,
      (⟨99, TypeDesc.StructDesc "P"
        [("x", TypeDesc.PrimitiveDesc NomsKind.BoolKind)]⟩ : Typ).desc =
        TypeDesc.StructDesc name fields ∧
      vs.length = fields.length ∧
      ReadsNValues 2 fields.length ⟨[Token.uint8 0, Token.boolT true], 0, initCache, 0⟩ vs
        ⟨[Token.uint8 0, Token.boolT true], 2, initCache, 0⟩ ∧
      Value.structV [Value.bool true]
          (TypeDesc.StructDesc "P" [("x", TypeDesc.PrimitiveDesc NomsKind.BoolKind)]) none =
        Value.structV vs
          (⟨99, TypeDesc.StructDesc "P"
            [("x", TypeDesc.PrimitiveDesc NomsKind.BoolKind)]⟩ : Typ).desc none :=
  readStruct_positional 2
    ⟨99, TypeDesc.StructDesc "P" [("x", TypeDesc.PrimitiveDesc NomsKind.BoolKind)]⟩
    ⟨[Token.uint8 0, Token.boolT true], 0, initCache, 0⟩
    ⟨[Token.uint8 0, Token.boolT true], 2, initCache, 0⟩
    (Value.structV [Value.bool true]
      (TypeDesc.StructDesc "P" [("x", TypeDesc.PrimitiveDesc NomsKind.BoolKind)]) none)
    rfl

/-- Witness for C8: the canonical all-zero digest text parses, and that very
success instantiates the shape characterization. -/
theorem parseDigest_spec_witness :
    ∃ rest, (String.mk ('s' :: 'h' :: 'a' :: '1' :: '-' :: List.replicate 40 '0')).data =
        's' :: 'h' :: 'a' :: '1' :: '-' :: rest ∧ rest.length = 40 ∧
        ∀ c ∈ rest, (hexVal c).isSome = true :=
  parseDigest_spec.1 _ _ parseDigest_spec.2

/-- Witness for C9: one bool value decoded against the fresh cache and
against a cache warmed with an unrelated cycle type gives the same value and
final position. -/
theorem readValue_deterministic_witness :
    Value.bool true = Value.bool true ∧
      (⟨[Token.uint8 0, Token.boolT true], 2, initCache, 0⟩ : DecState).pos =
      (⟨[Token.uint8 0, Token.boolT true], 2,
        { table := (TypeDesc.CycleDesc 0, 13) :: initCache.table,
          nextId := 14, trie := [] }, 0⟩ : DecState).pos :=
  readValue_deterministic 2 [Token.uint8 0, Token.boolT true] 0 initCache
    { table := (TypeDesc.CycleDesc 0, 13) :: initCache.table, nextId := 14, trie := [] } 0 0
    (Value.bool true) (Value.bool true)
    ⟨[Token.uint8 0, Token.boolT true], 2, initCache, 0⟩
    ⟨[Token.uint8 0, Token.boolT true], 2,
      { table := (TypeDesc.CycleDesc 0, 13) :: initCache.table, nextId := 14, trie := [] }, 0⟩
    initCache_wf (@getCycleType_wf 0 initCache initCache_wf) rfl rfl

/-- Witness for C10: a tuple whose first value decodes to a bool aborts the
meta-tuple decode. -/
theorem readMetaTuple_requires_ref_witness :
    readMetaTuple 3 ⟨[Token.uint8 0, Token.boolT true], 0, initCache, 0⟩ = none :=
  readMetaTuple_requires_ref.1 2
    ⟨[Token.uint8 0, Token.boolT true], 0, initCache, 0⟩
    ⟨[Token.uint8 0, Token.boolT true], 2, initCache, 0⟩
    (Value.bool true) rfl (fun r h => Value.noConfusion h)

end Noms
